import Mathlib

/-!
Verification of the dataframe engine (schema + join + rollup) against its
natural-language specification.

The JavaScript sources are shallowly embedded: rows are association lists
from column names to values (JS objects preserve insertion order), JS
values are an inductive type, fallible operations return Option or Except,
and in-place mutation of a dataframe is modelled by returning the updated
dataframe explicitly.  Date parsing of strings (Date.parse) is kept
abstract as a boolean oracle passed to every type-deriving function.
-/

set_option autoImplicit false

/-- JS runtime values as used by the engine: undefined, null, booleans,
numbers (rationals; Number.isInteger corresponds to denominator 1),
Date instances (epoch value), strings, arrays and plain objects. -/
inductive Value where
  | vundef : Value
  | vnull : Value
  | vbool : Bool → Value
  | vnum : Rat → Value
  | vdate : Int → Value
  | vstr : String → Value
  | varr : List Value → Value
  | vobj : List (String × Value) → Value
  deriving Repr

/-- Structural equality of values (used for bucket identity, where the
source uses JSON.stringify of the picked key fields; stringification is
injective on the defined, non-Date-vs-ISO-string fragment). -/
def Value.beq : Value → Value → Bool
  | .vundef, .vundef => true
  | .vnull, .vnull => true
  | .vbool a, .vbool b => a == b
  | .vnum a, .vnum b => a == b
  | .vdate a, .vdate b => a == b
  | .vstr a, .vstr b => a == b
  | .varr a, .varr b =>
      let rec goList : List Value → List Value → Bool
        | [], [] => true
        | x :: xs, y :: ys => Value.beq x y && goList xs ys
        | _, _ => false
      goList a b
  | .vobj a, .vobj b =>
      let rec goPairs : List (String × Value) → List (String × Value) → Bool
        | [], [] => true
        | (k, x) :: xs, (l, y) :: ys => k == l && Value.beq x y && goPairs xs ys
        | _, _ => false
      goPairs a b
  | _, _ => false

/-- A JS row object: an ordered association list of fields. -/
abbrev Row := List (String × Value)

/-- Reading a field of a JS object (first occurrence; absent gives
undefined, modelled as none). -/
def alGet {α : Type} : List (String × α) → String → Option α
  | [], _ => none
  | (k, v) :: rest, key => if k == key then some v else alGet rest key

/-- Replace the first list element satisfying the predicate. -/
def updateFirst {α : Type} (p : α → Bool) (f : α → α) : List α → List α
  | [] => []
  | x :: xs => if p x then f x :: xs else x :: updateFirst p f xs

/-- JS property assignment: an existing key keeps its position and gets
the new value, a new key is appended. -/
def alInsert {α : Type} (l : List (String × α)) (key : String) (v : α) :
    List (String × α) :=
  if (alGet l key).isSome then
    updateFirst (fun e => e.1 == key) (fun e => (e.1, v)) l
  else l ++ [(key, v)]

def Row.get (r : Row) (k : String) : Option Value := alGet r k

def Row.insert (r : Row) (k : String) (v : Value) : Row := alInsert r k v

/-- JS object spread of b over a, as in the idiom with a spread first and
b spread second: the fields of b win, insertion order follows a then the
new fields of b. -/
def Row.merge (a b : Row) : Row :=
  b.foldl (fun acc e => Row.insert acc e.1 e.2) a

/-- Keys of a row. -/
def Row.keys (r : Row) : List String := r.map Prod.fst

/-- ramda pick: keeps the named fields (in the order the names are
listed) that are present on the object. -/
def Row.pick (ks : List String) (r : Row) : Row :=
  ks.foldl (fun acc k =>
    match Row.get r k with
    | some v => Row.insert acc k v
    | none => acc) []

/-- ramda omit: drops the named fields, keeping object order. -/
def Row.omit (ks : List String) (r : Row) : Row :=
  r.filter (fun e => !(ks.contains e.1))

/-- Spreading a non-object JS value into an object literal: objects
contribute their fields, arrays and strings their index-keyed elements,
every other value contributes nothing. -/
def spreadIntoObj : Value → Row
  | .vobj r => r
  | .varr xs => (xs.enum).map (fun e => (toString e.1, e.2))
  | .vstr s => (s.data.enum).map (fun e => (toString e.1, Value.vstr (String.mk [e.2])))
  | _ => []

/-- ramda equals: deep value equality; arrays are compared in order,
objects by key set (order-insensitive), dates by their epoch value. -/
def jeqV : Value → Value → Bool
  | .vundef, .vundef => true
  | .vnull, .vnull => true
  | .vbool a, .vbool b => a == b
  | .vnum a, .vnum b => a == b
  | .vdate a, .vdate b => a == b
  | .vstr a, .vstr b => a == b
  | .varr a, .varr b =>
      let rec goArr : List Value → List Value → Bool
        | [], [] => true
        | x :: xs, y :: ys => jeqV x y && goArr xs ys
        | _, _ => false
      goArr a b
  | .vobj a, .vobj b =>
      let rec goFields : List (String × Value) → List (String × Value) → Bool
        | [], _ => true
        | (k, x) :: xs, b' =>
            (match alGet b' k with
             | some y => jeqV x y
             | none => false) && goFields xs b'
      (a.length == b.length) && goFields a b
  | _, _ => false

/-- ramda equals on two row objects. -/
def jeqRow (a b : Row) : Bool := jeqV (.vobj a) (.vobj b)

/-- Membership up to ramda equals. -/
def jmem (x : Row) (l : List Row) : Bool := l.any (fun y => jeqRow x y)

/-- ramda uniq (by deep equality, keeping first occurrences). -/
def juniq (l : List Row) : List Row :=
  l.foldl (fun acc x => if jmem x acc then acc else acc ++ [x]) []

/-- ramda difference: the deduplicated elements of the first list that
are deep-equal to nothing in the second. -/
def jdiff (a b : List Row) : List Row :=
  (juniq a).filter (fun x => !(jmem x b))

/-- String suffix test (JS String.prototype.endsWith). -/
def strEnds (s suf : String) : Bool :=
  decide (suf.data.length ≤ s.data.length) &&
    s.data.drop (s.data.length - suf.data.length) == suf.data

/-- Helper for replaceFirst: split a character list at the first
occurrence of the pattern. -/
def splitFirstAux (pat : List Char) : List Char → Option (List Char × List Char)
  | [] => if pat.isEmpty then some ([], []) else none
  | c :: rest =>
      if pat.isPrefixOf (c :: rest) then some ([], (c :: rest).drop pat.length)
      else match splitFirstAux pat rest with
        | some (pre, post) => some (c :: pre, post)
        | none => none

/-- JS String.prototype.replace with a string pattern and empty
replacement: removes the first occurrence of the pattern. -/
def replaceFirst (s pat : String) : String :=
  match splitFirstAux pat.data s.data with
  | some (pre, post) => String.mk (pre ++ post)
  | none => s

/-- Embeds getType of src/utils.js.  The oracle stands for the host
Date.parse test on strings (isDateString), which is environment
dependent; every theorem is parametric in it. -/
def getType (oracle : String → Bool) : Value → String
  | .varr _ => "array"
  | .vdate _ => "date"
  | .vnum q => if q.den == 1 then "integer" else "number"
  | .vstr s => if oracle s then "date" else "string"
  | .vbool _ => "boolean"
  | .vnull => "object"
  | .vobj _ => "object"
  | .vundef => "undefined"

example : Value.beq (.varr [.vnum 1, .vstr "a"]) (.varr [.vnum 1, .vstr "a"]) = true := by decide

example : jeqRow [("a", .vnum 1), ("b", .vnum 2)] [("b", .vnum 2), ("a", .vnum 1)] = true := by decide

example : jeqRow [("a", .vnum 1)] [("a", .vnum 1), ("b", .vnum 2)] = false := by decide

example : strEnds "price_currency" "_currency" = true := by decide

example : replaceFirst "price_currency" "_currency" = "price" := by decide

example : getType (fun _ => false) (.vnum 3) = "integer" := by decide

example : Row.merge [("a", .vnum 1), ("b", .vnum 2)] [("b", .vnum 3), ("c", .vnum 4)] =
    [("a", .vnum 1), ("b", .vnum 3), ("c", .vnum 4)] := rfl

/-- Column metadata entry of the engine (src/metadata.js): a name, a type
tag, and, only for array columns, nested metadata for the elements. -/
inductive ColMeta where
  | mk (name : String) (type : String) (meta : Option (List ColMeta)) : ColMeta
  deriving Repr

def ColMeta.name : ColMeta → String
  | .mk n _ _ => n

def ColMeta.type : ColMeta → String
  | .mk _ t _ => t

def ColMeta.meta : ColMeta → Option (List ColMeta)
  | .mk _ _ m => m

/-- ramda equals on metadata entries (objects with keys name, type and
optionally metadata; the nested list is compared in order). -/
def jeqColMeta : ColMeta → ColMeta → Bool
  | .mk n t m, b =>
      let rec goList : List ColMeta → List ColMeta → Bool
        | [], [] => true
        | x :: xs, y :: ys => jeqColMeta x y && goList xs ys
        | _, _ => false
      match b with
      | .mk n' t' m' =>
          n == n' && t == t' &&
          match m, m' with
          | none, none => true
          | some a, some c => goList a c
          | _, _ => false

/-- ramda equals on two metadata arrays (arrays compare in order). -/
def jeqColMetaList : List ColMeta → List ColMeta → Bool
  | [], [] => true
  | x :: xs, y :: ys => jeqColMeta x y && jeqColMetaList xs ys
  | _, _ => false

/-- Structural equality of rows, standing for the stringified bucket key
of groupDataByKeys (JSON.stringify of the picked group fields). -/
def rowBeq (a b : Row) : Bool := Value.beq (.vobj a) (.vobj b)

/-- A summary specification: output field name, a per-row mapper and a
reducer over the collected array.  The snapshot carries two generations
of this record; the rollup pipeline (src/rollup.js) consumes this
SummarySpec shape of the specification, each spec contributing the single
output field given by its name, and buildMetadata is embedded
accordingly. -/
structure Summary where
  name : String
  mapper : Row → Value
  reducer : List Value → Value

/-- The mutable configuration of a dataframe (src/constants.js
defaultConfig plus the filter armed by where). -/
structure Config where
  children : String := "children"
  actual_flag : String := "actual_flag"
  group_by : List String := []
  align_by : List String := []
  template : Row := []
  summaries : List Summary := []
  filter : Option (Row → Bool) := none

/-- A dataframe: data rows, column metadata, the derived column index and
the configuration. -/
structure DF where
  data : List Row
  metadata : List ColMeta
  columns : List (String × Nat)
  config : Config

/-- Constructor options (options.metadata overrides derivation; children
and actual_flag are the only config keys picked from the options). -/
structure DfOptions where
  metadata : Option (List ColMeta) := none
  deepScan : Bool := false
  childrenName : Option String := none
  actualFlagName : Option String := none

/-- ramda filter on object fields dropping null and undefined values
(compact of src/string.js). -/
def compactRow (r : Row) : Row :=
  r.filter (fun e => !(Value.beq e.2 .vundef) && !(Value.beq e.2 .vnull))

/-- Deep-scan sample: folds every row into one sample, first write per
key wins, null and undefined values are skipped. -/
def getDeepScanSample (data : List Row) : Row :=
  data.foldl (fun acc cur => Row.merge acc (compactRow (Row.omit (Row.keys acc) cur))) []

/-- Metadata derivation from the sample row (src/metadata.js
deriveColumnMetadata without the explicit override). -/
def deriveMetadataFromData (oracle : String → Bool) (deepScan : Bool) (data : List Row) :
    List ColMeta :=
  match data with
  | [] => []
  | r :: _ =>
      let sample := if deepScan then getDeepScanSample data else r
      sample.map (fun e => ColMeta.mk e.1 (getType oracle e.2) none)

/-- src/metadata.js deriveColumnMetadata: a non-empty explicit metadata
option wins, otherwise the schema is derived from the sample row. -/
def deriveColumnMetadata (oracle : String → Bool) (data : List Row) (options : DfOptions) :
    List ColMeta :=
  match options.metadata with
  | some ms => if 0 < ms.length then ms else deriveMetadataFromData oracle options.deepScan data
  | none => deriveMetadataFromData oracle options.deepScan data

/-- src/metadata.js deriveColumnIndex: name to position, later duplicate
names overwrite the stored index in place. -/
def deriveColumnIndex (ms : List ColMeta) : List (String × Nat) :=
  (ms.enum).foldl (fun acc e => alInsert acc e.2.name e.1) []

/-- The dataframe constructor (src/dataframe.js). -/
def dataframe (oracle : String → Bool) (data : List Row) (options : DfOptions) : DF :=
  let metadata := deriveColumnMetadata oracle data options
  { data := data
    metadata := metadata
    columns := deriveColumnIndex metadata
    config := { children := options.childrenName.getD "children"
                actual_flag := options.actualFlagName.getD "actual_flag" } }

/-- Rename options for one side of a join (src/metadata.js
getAttributeRenamer options). -/
structure RenameOpts where
  pre : Option String := none
  suf : Option String := none
  separator : String := "_"

/-- src/metadata.js getAttributeRenamer: adds a prefixed or suffixed
segment to a name, the prefixed form taking precedence. -/
def getAttributeRenamer (opts : RenameOpts) : String → String :=
  match opts.pre with
  | some p => fun x => p ++ opts.separator ++ x
  | none =>
      match opts.suf with
      | some s => fun x => x ++ opts.separator ++ s
      | none => id

/-- src/join.js getRenamerUsingLookup: remaps every key of a row through
a lookup table; a key missing from the table becomes the literal key
"undefined" (JS stringification of an undefined lookup). -/
def getRenamerUsingLookup (lookup : List (String × String)) (row : Row) : Row :=
  row.foldl (fun acc e => Row.insert acc ((alGet lookup e.1).getD "undefined") e.2) []

/-- src/join.js getDataRenamer: identity when no renaming was requested,
otherwise a lookup-based renamer built from the known keys. -/
def getDataRenamer (opts : RenameOpts) (keys : List String) : Row → Row :=
  if opts.pre.isNone && opts.suf.isNone then id
  else getRenamerUsingLookup
    (keys.foldl (fun acc k => alInsert acc k (getAttributeRenamer opts k)) [])

/-- Join options: per-side renaming and the join type token. -/
structure JoinOptions where
  left : RenameOpts := {}
  right : RenameOpts := {}
  type : String := "outer"

/-- src/join.js leftJoin: for every left row, the matching right rows are
merged under it with the left fields spread last (left wins); a left row
with no match survives alone exactly for the left and full types. -/
def leftJoin (data other : List Row) (query : Row → Row → Bool)
    (renameLeft renameRight : Row → Row) (type : String) : List Row :=
  data.foldl (fun acc x =>
    let ms := (other.filter (fun y => query x y)).map
      (fun y => Row.merge (renameRight y) (renameLeft x))
    let ms := if ms.isEmpty && (type == "left" || type == "full") then [renameLeft x] else ms
    acc ++ ms) []

/-- src/dataframe.js joinDataFrame: flat join of two dataframes; for the
full and right types the unmatched right rows are appended, and the
result schema is the renamed left schema followed by the renamed right
columns not already present by name. -/
def joinDataFrame (oracle : String → Bool) (df other : DF) (query : Row → Row → Bool)
    (opts : JoinOptions) : DF :=
  let keyLeft := getAttributeRenamer opts.left
  let keyRight := getAttributeRenamer opts.right
  let rowLeft := getDataRenamer opts.left (df.columns.map Prod.fst)
  let rowRight := getDataRenamer opts.right (other.columns.map Prod.fst)
  let combined := leftJoin df.data other.data query rowLeft rowRight opts.type
  let combined :=
    if opts.type == "full" || opts.type == "right" then
      combined ++ (other.data.filter (fun y => !(df.data.any (fun x => query x y)))).map rowRight
    else combined
  let leftMetadata := df.metadata.map (fun m => ColMeta.mk (keyLeft m.name) m.type m.meta)
  let rightMetadata := (other.metadata.map (fun m => ColMeta.mk (keyRight m.name) m.type m.meta)).filter
    (fun y => !(leftMetadata.any (fun x => x.name == y.name)))
  dataframe oracle combined { metadata := some (leftMetadata ++ rightMetadata) }

/-- The rightJoin method: joinDataFrame with the type forced to right. -/
def rightJoinDF (oracle : String → Bool) (df other : DF) (query : Row → Row → Bool)
    (opts : JoinOptions) : DF :=
  joinDataFrame oracle df other query { opts with type := "right" }

/-- The leftJoin method: joinDataFrame with the type forced to left. -/
def leftJoinDF (oracle : String → Bool) (df other : DF) (query : Row → Row → Bool)
    (opts : JoinOptions) : DF :=
  joinDataFrame oracle df other query { opts with type := "left" }

/-- src/dataframe.js nestedJoin: attaches the matching child rows as an
array-valued field on each parent row; the schema appends one array
column carrying the child schema. -/
def nestedJoin (oracle : String → Bool) (child parent : DF) (usingFn : Row → Row → Bool)
    (childrenName : String) : DF :=
  let data := parent.data.map (fun p =>
    Row.insert p childrenName (.varr ((child.data.filter (fun c => usingFn c p)).map Value.vobj)))
  let metadata := parent.metadata ++ [ColMeta.mk childrenName "array" (some child.metadata)]
  dataframe oracle data { metadata := some metadata }

/-- The forEach loop of src/metadata.js combineMetadata, with the
accumulated schema threaded explicitly. -/
def combineMetadataGo (overwrite : Bool) : List ColMeta → List ColMeta →
    Except String (List ColMeta)
  | ms, [] => .ok ms
  | ms, m :: rest =>
      match ms.find? (fun x => x.name == m.name) with
      | some existing =>
          if overwrite then
            combineMetadataGo overwrite
              (updateFirst (fun x => x.name == m.name) (fun x => ColMeta.mk x.name m.type x.meta) ms)
              rest
          else if existing.type ≠ m.type then
            .error ("Metadata conflict: " ++ m.name ++ " has conflicting types")
          else combineMetadataGo overwrite ms rest
      | none => combineMetadataGo overwrite (ms ++ [ColMeta.mk m.name m.type none]) rest

/-- src/metadata.js combineMetadata: starts from the first schema; a
second-side column is appended (as a plain name-and-type entry) when the
name is new, retypes the existing entry when overwrite is set, and
otherwise errors on a type mismatch. -/
def combineMetadata (first second : List ColMeta) (overwrite : Bool) :
    Except String (List ColMeta) :=
  combineMetadataGo overwrite first second

/-- src/dataframe.js union: concatenated rows under the combined schema;
a schema conflict propagates as the error. -/
def union (oracle : String → Bool) (df other : DF) : Except String DF := do
  let metadata ← combineMetadata df.metadata other.metadata false
  .ok (dataframe oracle (df.data ++ other.data) { metadata := some metadata })

/-- src/dataframe.js minus: on any schema difference the left dataframe
is returned unchanged; otherwise keeps the left rows deep-equal to no
right row. -/
def minus (oracle : String → Bool) (df other : DF) : DF :=
  if !(jeqColMetaList df.metadata other.metadata) then df
  else
    dataframe oracle (df.data.filter (fun row => !(other.data.any (fun r => jeqRow row r))))
      { metadata := some df.metadata }

/-- src/dataframe.js intersect: on any schema difference an empty
dataframe is returned; otherwise keeps the left rows deep-equal to some
right row. -/
def intersect (oracle : String → Bool) (df other : DF) : DF :=
  if !(jeqColMetaList df.metadata other.metadata) then dataframe oracle [] {}
  else
    dataframe oracle (df.data.filter (fun row => other.data.any (fun r => jeqRow row r)))
      { metadata := some df.metadata }

/-- src/dataframe.js dropColumns. -/
def dropColumns (oracle : String → Bool) (df : DF) (fields : List String) : DF :=
  let metadata := df.metadata.filter (fun col => !(fields.contains col.name))
  dataframe oracle (df.data.map (fun row => Row.omit fields row)) { metadata := some metadata }

/-- src/dataframe.js where: arms the one-shot filter. -/
def whereDF (df : DF) (condition : Row → Bool) : DF :=
  { df with config := { df.config with filter := some condition } }

/-- src/dataframe.js select, with the mutation of the dataframe made
explicit in the returned pair: projects to the given columns (all fields
when none are given), then applies the armed filter to the projected
rows, and resets the filter. -/
def select (df : DF) (columns : List String) : List Row × DF :=
  let result := if columns.length > 0 then df.data.map (fun row => Row.pick columns row) else df.data
  let result :=
    match df.config.filter with
    | some f => result.filter f
    | none => result
  (result, { df with config := { df.config with filter := none } })

/-- src/dataframe.js updateRows: merges the value into every row passing
the armed filter (all rows when none is armed), resets the filter and
recombines the metadata with overwrite. -/
def updateRows (oracle : String → Bool) (df : DF) (value : Row) : DF :=
  let f := df.config.filter.getD (fun _ => true)
  let data := df.data.map (fun row => if f row then Row.merge row value else row)
  let metadata :=
    match combineMetadata df.metadata (deriveColumnMetadata oracle [value] {}) true with
    | .ok ms => ms
    | .error _ => []
  { data := data
    metadata := metadata
    columns := deriveColumnIndex metadata
    config := { df.config with filter := none } }

/-- src/dataframe.js deleteRows: splices out every row passing the armed
filter (all rows when none is armed) and resets the filter; metadata is
untouched. -/
def deleteRows (df : DF) : DF :=
  let f := df.config.filter.getD (fun _ => true)
  { df with data := df.data.filter (fun row => !(f row))
            config := { df.config with filter := none } }

/-- src/dataframe.js applyFn: maps the function over the rows,
pre-filtered by an armed filter; the dataframe (in particular the armed
filter) is returned untouched. -/
def applyFn (df : DF) (fn : Row → Value) : List Value × DF :=
  match df.config.filter with
  | some f => ((df.data.filter f).map fn, df)
  | none => (df.data.map fn, df)

/-- src/dataframe.js excludeInvalidFields. -/
def excludeInvalidFields (fields : List String) (columns : List (String × Nat)) : List String :=
  fields.filter (fun name => (alGet columns name).isSome)

/-- src/dataframe.js groupBy. -/
def groupBy (df : DF) (fields : List String) : DF :=
  { df with config := { df.config with group_by := excludeInvalidFields fields df.columns } }

/-- src/dataframe.js align. -/
def alignColumns (df : DF) (fields : List String) : DF :=
  { df with config := { df.config with align_by := excludeInvalidFields fields df.columns } }

/-- src/dataframe.js using. -/
def usingTemplate (df : DF) (template : Row) : DF :=
  { df with config := { df.config with template := template } }

/-- Modelled from the spec: summary registration.  The snapshot's
summarize builds the older record shape while the rollup pipeline
consumes SummarySpec records of section 3 of the specification; this
registers a SummarySpec directly. -/
def addSummary (df : DF) (s : Summary) : DF :=
  { df with config := { df.config with summaries := df.config.summaries ++ [s] } }

/-- Option-valued mapM over lists, modelling a JS map that may throw. -/
def optMapM {α β : Type} (f : α → Option β) : List α → Option (List β)
  | [] => some []
  | x :: xs =>
      match f x, optMapM f xs with
      | some y, some ys => some (y :: ys)
      | _, _ => none

/-- Option-valued foldM over lists, modelling a JS reduce that may
throw. -/
def optFoldM {α β : Type} (f : β → α → Option β) : β → List α → Option β
  | b, [] => some b
  | b, x :: xs =>
      match f b x with
      | some b' => optFoldM f b' xs
      | none => none

/-- src/rollup.js initialValues: one empty collection array per summary
output field. -/
def initialValues (summaries : List Summary) : Row :=
  summaries.foldl (fun acc s => Row.insert acc s.name (.varr [])) []

/-- src/rollup.js addToSummaries: pushes the mapped row onto each
summary's collection array; pushing onto a non-array field is the JS
TypeError, modelled as none. -/
def addToSummaries (group : Row) (row : Row) (summaries : List Summary) : Option Row :=
  optFoldM (fun g s =>
    match Row.get g s.name with
    | some (.varr xs) => some (Row.insert g s.name (.varr (xs ++ [s.mapper row])))
    | _ => none) group summaries

/-- One step of the grouping reduce: find or create the bucket of the
stringified group key and add the row to its summaries. -/
def bucketsUpdate (buckets : List (Row × Row)) (keyRow : Row) (row : Row)
    (summaries : List Summary) : Option (List (Row × Row)) :=
  match buckets with
  | [] =>
      (addToSummaries (Row.merge keyRow (initialValues summaries)) row summaries).map
        (fun b => [(keyRow, b)])
  | (k, b) :: rest =>
      if rowBeq k keyRow then
        (addToSummaries b row summaries).map (fun b' => (k, b') :: rest)
      else
        (bucketsUpdate rest keyRow row summaries).map (fun r => (k, b) :: r)

/-- src/rollup.js groupDataByKeys: buckets the rows by their picked
group-key fields, in first-encounter order; each bucket row starts as the
key fields followed by the initial summary arrays. -/
def groupDataByKeys (data : List Row) (gkeys : List String) (summaries : List Summary) :
    Option (List (Row × Row)) :=
  optFoldM (fun buckets row => bucketsUpdate buckets (Row.pick gkeys row) row summaries) [] data

/-- The filler template of src/rollup.js getAlignGenerator: the
configured template minus the align and group fields, with the actual
flag field set to 0. -/
def alignTemplate (cfg : Config) : Row :=
  Row.insert (Row.omit (cfg.align_by ++ cfg.group_by) cfg.template) cfg.actual_flag (.vnum 0)

/-- ramda pick applied to an arbitrary JS value, as the align generator
does on collected entries; the in operator throws on primitives, null
and undefined (none). -/
def valuePick (ks : List String) : Value → Option Row
  | .vobj r => some (Row.pick ks r)
  | .varr xs => some (Row.pick ks (spreadIntoObj (.varr xs)))
  | .vdate d => some (Row.pick ks (spreadIntoObj (.vdate d)))
  | _ => none

/-- src/rollup.js getAlignGenerator: collects the distinct align-key
combinations of the whole row collection, and returns the generator that
diffs a collected array's own combinations against that set and merges
each missing combination over the filler template. -/
def getAlignGenerator (data : List Row) (cfg : Config) : List Value → Option (List Row) :=
  let subset := juniq (data.map (Row.pick cfg.align_by))
  fun entries =>
    (optMapM (valuePick cfg.align_by) entries).map (fun combos =>
      (jdiff subset (juniq combos)).map (fun c => Row.merge c (alignTemplate cfg)))

/-- Tagging of a genuinely collected entry in src/rollup.js
fillAlignedData: the entry spread into a fresh object with the actual
flag field set to 1. -/
def tagActual (cfg : Config) (v : Value) : Value :=
  .vobj (Row.insert (spreadIntoObj v) cfg.actual_flag (.vnum 1))

/-- src/rollup.js fillAlignedData: takes the bucket values of the
grouped object and rewrites only the field named by the children config:
tagged actual entries first, then the generated filler rows.  A bucket
without an array under that name is the JS TypeError (none). -/
def fillAlignedData (groupedData : List (Row × Row)) (cfg : Config)
    (fillRowsFunc : List Value → Option (List Row)) : Option (List Row) :=
  optMapM (fun row =>
    match Row.get row cfg.children with
    | some (.varr xs) =>
        (fillRowsFunc xs).map (fun fills =>
          Row.insert row cfg.children (.varr (xs.map (tagActual cfg) ++ fills.map Value.vobj)))
    | _ => none) (groupedData.map Prod.snd)

/-- src/rollup.js aggregateData: replaces each summary's collection
array by its reduced value; a missing or non-array field is the JS
failure of the reducer (none). -/
def aggregateData (dataArray : List Row) (summaries : List Summary) : Option (List Row) :=
  optMapM (fun row =>
    (optFoldM (fun acc s =>
        match Row.get row s.name with
        | some (.varr xs) => some (Row.insert acc s.name (s.reducer xs))
        | _ => none) [] summaries).map
      (fun reduced => Row.merge row reduced)) dataArray

/-- JS Object.entries as used on a metadata sample value: throws on null
and undefined, otherwise yields the own enumerable entries. -/
def objEntries : Value → Option Row
  | .vnull => none
  | .vundef => none
  | v => some (spreadIntoObj v)

/-- src/metadata.js deriveColumnMetadata applied to an array of values
(the nested call of buildMetadata on an array-typed output field). -/
def deriveColumnMetadataFromValues (oracle : String → Bool) (xs : List Value) :
    Option (List ColMeta) :=
  match xs with
  | [] => some []
  | v :: _ =>
      (objEntries v).map (fun r => r.map (fun e => ColMeta.mk e.1 (getType oracle e.2) none))

/-- src/metadata.js buildMetadata: the group-by columns of the old
metadata followed by one entry per summary output field, typed from the
first aggregated row; on an empty aggregated output the read of that
first row is the JS TypeError (none).  Each SummarySpec contributes the
single output field given by its name. -/
def buildMetadata (oracle : String → Bool) (data : List Row) (oldMetadata : List ColMeta)
    (groupByKeys : List String) (summaries : List Summary) : Option (List ColMeta) :=
  match data with
  | [] => none
  | d0 :: _ =>
      optFoldM (fun ms s =>
        let v := (Row.get d0 s.name).getD .vundef
        let t := getType oracle v
        if t == "array" then
          match v with
          | .varr xs =>
              (deriveColumnMetadataFromValues oracle xs).map
                (fun nested => ms ++ [ColMeta.mk s.name t (some nested)])
          | _ => none
        else some (ms ++ [ColMeta.mk s.name t none]))
        (oldMetadata.filter (fun m => groupByKeys.contains m.name)) summaries

/-- Modelled from the spec: defaultAggregator of src/rollup.js is not in
the snapshot; per section 4.5 step 2 it maps each row to its non-group
fields and reduces with the identity (nesting) reducer, under the
children field name. -/
def defaultAggregator (metadata : List ColMeta) (cfg : Config) : Summary :=
  { name := cfg.children
    mapper := fun row =>
      .vobj (Row.pick ((metadata.filter (fun m => !(cfg.group_by.contains m.name))).map
        ColMeta.name) row)
    reducer := fun xs => .varr xs }

/-- src/dataframe.js rollup: configuration check, grouping, optional
alignment, aggregation and metadata building; every JS TypeError of the
pipeline surfaces as an error naming its stage (the grouped object is
consumed through its values, in bucket insertion order). -/
def rollup (oracle : String → Bool) (df : DF) : Except String DF :=
  if df.config.group_by.isEmpty && df.config.summaries.isEmpty then
    .error "Use groupBy to specify the columns to group by or use summarize to add aggregators."
  else
    let summaries :=
      if df.config.summaries.isEmpty then [defaultAggregator df.metadata df.config]
      else df.config.summaries
    match groupDataByKeys df.data df.config.group_by summaries with
    | none => .error "TypeError: groupDataByKeys"
    | some grouped =>
      let step : Option (List Row) :=
        if df.config.align_by.isEmpty then some (grouped.map Prod.snd)
        else fillAlignedData grouped df.config (getAlignGenerator df.data df.config)
      match step with
      | none => .error "TypeError: fillAlignedData"
      | some aligned =>
        match aggregateData aligned summaries with
        | none => .error "TypeError: aggregateData"
        | some aggregated =>
          match buildMetadata oracle aggregated df.metadata df.config.group_by summaries with
          | none => .error "TypeError: buildMetadata reads the first aggregated row"
          | some newMetadata => .ok (dataframe oracle aggregated { metadata := some newMetadata })

/-- A column record of the view-layer schema derivation
(src/metadata.js deriveColumnProperties); optional JS keys are Option
fields. -/
structure Column where
  name : String
  type : String
  sortable : Bool := true
  filterable : Bool := true
  sorted : String := "none"
  fieldsText : String := ""
  fieldsCurrency : Option String := none
  digits : Option Nat := none
  pathAttr : Bool := false
  sepAttr : Option String := none
  deriving Repr

/-- Path options of src/constants.js defaultPathOptions. -/
structure PathOptions where
  path : Option String := none
  separator : String := "/"
  currencySuffix : String := "_currency"

/-- The in-place upgrade of a matched base column in
src/metadata.js mergeCurrencyAttributes. -/
def upgradeCurrency (col : Column) (currencyName : String) : Column :=
  { col with type := "currency", digits := some 2, fieldsCurrency := some currencyName }

/-- src/metadata.js mergeCurrencyAttributes: suffix-named columns fold
into their base column (upgraded to currency) and disappear; a suffix
column without a base column is kept, after all base columns. -/
def mergeCurrencyAttributes (input : List Column) (suf : String) : List Column :=
  let currencyColumns := input.filter (fun c => strEnds c.name suf)
  let baseColumns := input.filter (fun c => !(strEnds c.name suf))
  let result := currencyColumns.foldl (fun acc c =>
      let base := replaceFirst c.name suf
      if acc.1.any (fun col => col.name == base) then
        (updateFirst (fun col => col.name == base) (fun col => upgradeCurrency col c.name) acc.1,
          acc.2)
      else (acc.1, acc.2 ++ [c]))
    (baseColumns, [])
  result.1 ++ result.2

/-- src/metadata.js addPathModifier: moves the path column to the front
with the path attributes set. -/
def addPathModifier (columns : List Column) (path : Option String) (sep : String) :
    List Column :=
  match path with
  | none => columns
  | some p =>
      match columns.findIdx? (fun c => c.name == p) with
      | some i =>
          match columns.get? i with
          | some c =>
              ({ c with pathAttr := true, sepAttr := some sep }) ::
                (columns.take i ++ columns.drop (i + 1))
          | none => columns
      | none => columns

/-- src/metadata.js deriveColumnProperties: one column per sample field
with derived type and display fields, then the path modifier and the
currency merge. -/
def deriveColumnProperties (oracle : String → Bool) (sample : Row) (options : PathOptions) :
    List Column :=
  let columns := sample.map (fun e =>
    { name := e.1, type := getType oracle e.2, sortable := true, filterable := true,
      sorted := "none", fieldsText := e.1 : Column })
  mergeCurrencyAttributes (addPathModifier columns options.path options.separator)
    options.currencySuffix

section Lemmas

variable {α : Type}

theorem alGet_append (l₁ l₂ : List (String × α)) (k : String) :
    alGet (l₁ ++ l₂) k =
      match alGet l₁ k with
      | some v => some v
      | none => alGet l₂ k := by
  induction l₁ with
  | nil => simp [alGet]
  | cons e rest ih =>
      obtain ⟨k', v⟩ := e
      by_cases h : k' == k <;> simp [alGet, h, ih]

theorem alGet_updateFirst_self (l : List (String × α)) (k : String) (v : α)
    (h : (alGet l k).isSome) :
    alGet (updateFirst (fun e => e.1 == k) (fun e => (e.1, v)) l) k = some v := by
  induction l with
  | nil => simp [alGet] at h
  | cons e rest ih =>
      obtain ⟨k', w⟩ := e
      by_cases hk : k' == k
      · simp [updateFirst, alGet, hk]
      · simp [alGet, hk] at h
        simp [updateFirst, alGet, hk, ih h]

theorem alGet_updateFirst_ne (l : List (String × α)) (k k' : String) (v : α)
    (h : k' ≠ k) :
    alGet (updateFirst (fun e => e.1 == k) (fun e => (e.1, v)) l) k' = alGet l k' := by
  induction l with
  | nil => simp [updateFirst]
  | cons e rest ih =>
      obtain ⟨k₀, w⟩ := e
      by_cases hk : k₀ == k
      · have hne : (k₀ == k') = false := by
          simp only [beq_iff_eq] at hk
          subst hk
          simp [beq_eq_false_iff_ne]
          exact fun hh => h hh.symm
        simp [updateFirst, alGet, hk, hne]
      · by_cases hk' : k₀ == k'
        · simp [updateFirst, alGet, hk, hk']
        · simp [updateFirst, alGet, hk, hk', ih]

theorem alGet_alInsert_self (l : List (String × α)) (k : String) (v : α) :
    alGet (alInsert l k v) k = some v := by
  unfold alInsert
  by_cases h : (alGet l k).isSome
  · simp [h, alGet_updateFirst_self l k v h]
  · simp [h, alGet_append]
    have : alGet l k = none := by
      cases hh : alGet l k
      · rfl
      · simp [hh] at h
    simp [this, alGet]

theorem alGet_alInsert_ne (l : List (String × α)) (k k' : String) (v : α) (h : k' ≠ k) :
    alGet (alInsert l k v) k' = alGet l k' := by
  unfold alInsert
  by_cases hs : (alGet l k).isSome
  · simp [hs, alGet_updateFirst_ne l k k' v h]
  · simp [hs, alGet_append]
    cases hh : alGet l k' with
    | some w => simp
    | none =>
        have : (k == k') = false := by
          simp [beq_eq_false_iff_ne]
          exact fun hh => h hh.symm
        simp [alGet, this]

theorem alGet_isSome_iff_mem (l : List (String × α)) (k : String) :
    (alGet l k).isSome ↔ k ∈ l.map Prod.fst := by
  induction l with
  | nil => simp [alGet]
  | cons e rest ih =>
      obtain ⟨k', v⟩ := e
      by_cases h : k' = k
      · subst h
        simp [alGet]
      · have h' : (k' == k) = false := by simp [h]
        rw [List.map_cons, List.mem_cons]
        simp only [alGet, h', if_false, Bool.false_eq_true]
        rw [ih]
        constructor
        · exact fun hm => Or.inr hm
        · rintro (rfl | hm)
          · exact absurd rfl h
          · exact hm

theorem alGet_eq_none_of_not_mem (l : List (String × α)) (k : String)
    (h : ¬ k ∈ l.map Prod.fst) : alGet l k = none := by
  cases hh : alGet l k with
  | none => rfl
  | some v =>
      exact absurd ((alGet_isSome_iff_mem l k).mp (by simp [hh])) h

theorem keys_updateFirst (l : List (String × α)) (k : String) (v : α) :
    (updateFirst (fun e => e.1 == k) (fun e => (e.1, v)) l).map Prod.fst = l.map Prod.fst := by
  induction l with
  | nil => simp [updateFirst]
  | cons e rest ih =>
      by_cases h : e.1 == k <;> simp [updateFirst, h, ih]

theorem keys_alInsert (l : List (String × α)) (k : String) (v : α) :
    (alInsert l k v).map Prod.fst =
      if k ∈ l.map Prod.fst then l.map Prod.fst else l.map Prod.fst ++ [k] := by
  unfold alInsert
  by_cases h : k ∈ l.map Prod.fst
  · have := (alGet_isSome_iff_mem l k).mpr h
    simp [this, h, keys_updateFirst]
  · have : (alGet l k).isSome = false := by
      cases hh : alGet l k with
      | none => rfl
      | some v => exact absurd ((alGet_isSome_iff_mem l k).mp (by simp [hh])) h
    simp [this, h]

theorem nodup_keys_alInsert (l : List (String × α)) (k : String) (v : α)
    (h : (l.map Prod.fst).Nodup) : ((alInsert l k v).map Prod.fst).Nodup := by
  rw [keys_alInsert]
  by_cases hm : k ∈ l.map Prod.fst
  · simpa [hm]
  · simp [hm, List.nodup_append, h]

end Lemmas

@[simp] theorem Row.get_eq (r : Row) (k : String) : Row.get r k = alGet r k := rfl

@[simp] theorem Row.insert_eq (r : Row) (k : String) (v : Value) :
    Row.insert r k v = alInsert r k v := rfl

@[simp] theorem Row.keys_eq (r : Row) : Row.keys r = r.map Prod.fst := rfl

theorem Row.get_insert_self (r : Row) (k : String) (v : Value) :
    Row.get (Row.insert r k v) k = some v := alGet_alInsert_self r k v

theorem Row.get_insert_ne (r : Row) (k k' : String) (v : Value) (h : k' ≠ k) :
    Row.get (Row.insert r k v) k' = Row.get r k' := alGet_alInsert_ne r k k' v h

theorem Row.get_merge (a b : Row) (k : String) (hb : (Row.keys b).Nodup) :
    Row.get (Row.merge a b) k =
      match Row.get b k with
      | some v => some v
      | none => Row.get a k := by
  induction b generalizing a with
  | nil => simp [Row.merge, alGet]
  | cons e rest ih =>
      obtain ⟨k₀, v₀⟩ := e
      simp only [Row.keys_eq, List.map_cons, List.nodup_cons] at hb
      have hb' : (Row.keys rest).Nodup := hb.2
      have hk₀ : k₀ ∉ rest.map Prod.fst := hb.1
      have hstep : Row.merge a ((k₀, v₀) :: rest) = Row.merge (Row.insert a k₀ v₀) rest := rfl
      rw [hstep, ih (Row.insert a k₀ v₀) hb']
      by_cases h : k = k₀
      · subst h
        have hnone : alGet rest k = none := alGet_eq_none_of_not_mem rest k hk₀
        simp [alGet, hnone, alGet_alInsert_self]
      · have h' : (k₀ == k) = false := by
          simp [beq_eq_false_iff_ne]
          exact fun hh => h hh.symm
        simp only [Row.get_eq, alGet, h', Bool.false_eq_true, if_false]
        cases halg : alGet rest k with
        | some v => rfl
        | none => exact alGet_alInsert_ne a k₀ k v₀ h

theorem keys_merge_nodup (a b : Row) (ha : (Row.keys a).Nodup) :
    (Row.keys (Row.merge a b)).Nodup := by
  induction b generalizing a with
  | nil => exact ha
  | cons e rest ih =>
      exact ih (Row.insert a e.1 e.2) (nodup_keys_alInsert a e.1 e.2 ha)

theorem pickLoop_get (r : Row) (ks : List String) (acc : Row) (k : String) :
    alGet (ks.foldl (fun acc k =>
      match alGet r k with
      | some v => alInsert acc k v
      | none => acc) acc) k =
    if k ∈ ks ∧ (alGet r k).isSome then alGet r k else alGet acc k := by
  induction ks generalizing acc with
  | nil => simp
  | cons k₀ rest ih =>
      rw [List.foldl_cons, ih]
      by_cases hs : (alGet r k).isSome
      · by_cases hmem : k ∈ rest
        · rw [if_pos ⟨hmem, hs⟩, if_pos ⟨List.mem_cons_of_mem k₀ hmem, hs⟩]
        · rw [if_neg (fun hc => hmem hc.1)]
          by_cases hk : k = k₀
          · subst hk
            rw [if_pos ⟨List.mem_cons_self k rest, hs⟩]
            obtain ⟨v, hv⟩ := Option.isSome_iff_exists.mp hs
            rw [hv]
            exact alGet_alInsert_self acc k v
          · have hnc : k ∉ k₀ :: rest := by
              rw [List.mem_cons]
              rintro (h | h)
              · exact hk h
              · exact hmem h
            rw [if_neg (fun hc => hnc hc.1)]
            cases hr : alGet r k₀ with
            | some v => exact alGet_alInsert_ne acc k₀ k v hk
            | none => rfl
      · have hno1 : ¬(k ∈ rest ∧ (alGet r k).isSome = true) := fun hc => hs hc.2
        have hno2 : ¬(k ∈ k₀ :: rest ∧ (alGet r k).isSome = true) := fun hc => hs hc.2
        rw [if_neg hno1, if_neg hno2]
        by_cases hk : k = k₀
        · subst hk
          cases hr : alGet r k with
          | some v => rw [hr] at hs; simp at hs
          | none => rfl
        · cases hr : alGet r k₀ with
          | some v => exact alGet_alInsert_ne acc k₀ k v hk
          | none => rfl

theorem Row.get_pick (ks : List String) (r : Row) (k : String) :
    Row.get (Row.pick ks r) k = if k ∈ ks then Row.get r k else none := by
  have hpick : Row.pick ks r = ks.foldl (fun acc k =>
      match alGet r k with
      | some v => alInsert acc k v
      | none => acc) [] := rfl
  rw [Row.get_eq, hpick, pickLoop_get r ks [] k]
  by_cases hmem : k ∈ ks
  · by_cases hs : (alGet r k).isSome
    · simp [hmem, hs]
    · have hnone : alGet r k = none := by
        cases hh : alGet r k
        · rfl
        · rw [hh] at hs; simp at hs
      simp [hmem, hnone, alGet]
  · simp [hmem, alGet]

theorem Row.pick_keys_subset (ks : List String) (r : Row) (k : String)
    (h : k ∈ Row.keys (Row.pick ks r)) : k ∈ ks := by
  have hs : (alGet (Row.pick ks r) k).isSome :=
    (alGet_isSome_iff_mem (Row.pick ks r) k).mpr (by simpa using h)
  by_cases hmem : k ∈ ks
  · exact hmem
  · have := Row.get_pick ks r k
    rw [if_neg hmem] at this
    rw [Row.get_eq] at this
    rw [this] at hs
    simp at hs

theorem Row.pick_congr (ks : List String) (a b : Row)
    (h : ∀ k ∈ ks, Row.get a k = Row.get b k) : Row.pick ks a = Row.pick ks b := by
  rw [Row.pick, Row.pick]
  have main : ∀ (ks' : List String) (acc : Row), (∀ k ∈ ks', Row.get a k = Row.get b k) →
      ks'.foldl (fun acc k =>
        match Row.get a k with
        | some v => Row.insert acc k v
        | none => acc) acc =
      ks'.foldl (fun acc k =>
        match Row.get b k with
        | some v => Row.insert acc k v
        | none => acc) acc := by
    intro ks'
    induction ks' with
    | nil => intro acc _; rfl
    | cons k₀ rest ih =>
        intro acc hall
        have h₀ := hall k₀ (by simp)
        have hrest : ∀ k ∈ rest, Row.get a k = Row.get b k := fun k hk => hall k (by simp [hk])
        simp only [List.foldl_cons, h₀]
        exact ih _ hrest
  exact main ks [] h

theorem Row.pick_keys_nodup (ks : List String) (r : Row) :
    (Row.keys (Row.pick ks r)).Nodup := by
  rw [Row.pick]
  have main : ∀ (ks' : List String) (acc : Row), (Row.keys acc).Nodup →
      (Row.keys (ks'.foldl (fun acc k =>
        match Row.get r k with
        | some v => Row.insert acc k v
        | none => acc) acc)).Nodup := by
    intro ks'
    induction ks' with
    | nil => intro acc h; exact h
    | cons k₀ rest ih =>
        intro acc h
        simp only [List.foldl_cons]
        cases hr : Row.get r k₀ with
        | some v => exact ih _ (nodup_keys_alInsert acc k₀ v h)
        | none => exact ih _ h
  exact main ks [] (by simp)

theorem alGet_filter_key (p : String → Bool) (r : Row) (k : String) :
    alGet (r.filter (fun e => p e.1)) k = if p k then alGet r k else none := by
  induction r with
  | nil => simp [alGet]
  | cons e rest ih =>
      obtain ⟨k₀, v₀⟩ := e
      by_cases hk : k₀ = k
      · subst hk
        by_cases hp : p k₀
        · simp [List.filter_cons, hp, alGet]
        · simp [List.filter_cons, hp, alGet, ih]
      · have hk' : (k₀ == k) = false := by simp [hk]
        by_cases hp : p k₀
        · simp [List.filter_cons, hp, alGet, hk', ih]
        · simp [List.filter_cons, hp, alGet, hk', ih]

theorem Row.get_omit (ks : List String) (r : Row) (k : String) :
    Row.get (Row.omit ks r) k = if k ∈ ks then none else Row.get r k := by
  have hfil := alGet_filter_key (fun s => !(ks.contains s)) r k
  have homit : Row.omit ks r = r.filter (fun e => !(ks.contains e.1)) := rfl
  rw [Row.get_eq, homit, hfil]
  by_cases hmem : k ∈ ks
  · simp [hmem]
  · simp [hmem]

theorem Row.omit_keys_nodup (ks : List String) (r : Row) (h : (Row.keys r).Nodup) :
    (Row.keys (Row.omit ks r)).Nodup := by
  have hsub : List.Sublist ((Row.omit ks r).map Prod.fst) (r.map Prod.fst) :=
    List.Sublist.map Prod.fst (List.filter_sublist r)
  simp only [Row.keys_eq] at h ⊢
  exact List.Nodup.sublist hsub h

theorem foldl_append_bind {α β : Type} (l : List α) (f : α → List β) (acc : List β) :
    l.foldl (fun a x => a ++ f x) acc = acc ++ l.flatMap f := by
  induction l generalizing acc with
  | nil => simp
  | cons x rest ih => simp [ih, List.append_assoc]

theorem optMapM_forall₂ {α β : Type} (f : α → Option β) (l : List α) (r : List β)
    (h : optMapM f l = some r) : List.Forall₂ (fun a b => f a = some b) l r := by
  induction l generalizing r with
  | nil =>
      simp [optMapM] at h
      subst h
      exact List.Forall₂.nil
  | cons x rest ih =>
      rw [optMapM] at h
      cases hx : f x with
      | none => rw [hx] at h; simp at h
      | some y =>
          rw [hx] at h
          cases hrest : optMapM f rest with
          | none => rw [hrest] at h; simp at h
          | some ys =>
              rw [hrest] at h
              simp at h
              subst h
              exact List.Forall₂.cons hx (ih ys hrest)

/-- Claim C6: after where(p), the armed filter is consumed by exactly one
of the next select, update or delete (that call applies p and resets the
filter to none, and a second consuming call no longer applies it), while
apply pre-filters by the armed filter but leaves it armed. -/
theorem claim6_one_shot_filter (oracle : String → Bool) (df : DF) (p : Row → Bool)
    (f : Row → Value) (v : Row) :
    (select (whereDF df p) []).1 = df.data.filter p ∧
    (select (whereDF df p) []).2.config.filter = none ∧
    (select (select (whereDF df p) []).2 []).1 = df.data ∧
    (updateRows oracle (whereDF df p) v).data =
      df.data.map (fun r => if p r then Row.merge r v else r) ∧
    (updateRows oracle (whereDF df p) v).config.filter = none ∧
    (deleteRows (whereDF df p)).data = df.data.filter (fun r => !(p r)) ∧
    (deleteRows (whereDF df p)).config.filter = none ∧
    applyFn (whereDF df p) f = ((df.data.filter p).map f, whereDF df p) :=
  ⟨rfl, rfl, rfl, rfl, rfl, rfl, rfl, rfl⟩

/-- Claim C5: when the two schemas are not deeply equal (ramda equals on
the metadata sequences), minus returns the left dataframe unchanged while
intersect returns an empty dataframe with an empty schema; when they are
deeply equal, minus keeps exactly the left rows deep-equal to no right
row and intersect keeps exactly the left rows deep-equal to some right
row. -/
theorem claim5_minus_intersect (oracle : String → Bool) (a b : DF) :
    (jeqColMetaList a.metadata b.metadata = false →
      minus oracle a b = a ∧
      (intersect oracle a b).data = [] ∧ (intersect oracle a b).metadata = []) ∧
    (jeqColMetaList a.metadata b.metadata = true →
      (minus oracle a b).data =
        a.data.filter (fun row => !(b.data.any (fun r => jeqRow row r))) ∧
      (intersect oracle a b).data =
        a.data.filter (fun row => b.data.any (fun r => jeqRow row r))) := by
  constructor
  · intro h
    refine ⟨?_, ?_, ?_⟩
    · rw [minus, h]
      simp
    · rw [intersect, h]
      simp
      rfl
    · rw [intersect, h]
      simp
      rfl
  · intro h
    constructor
    · rw [minus, h]
      simp
      rfl
    · rw [intersect, h]
      simp
      rfl

/-- Witness for claim C5 at concrete dataframes: mismatching schemas on
one side, matching schemas on the other. -/
theorem claim5_witness :
    (minus (fun _ => false) (dataframe (fun _ => false) [[("x", Value.vnum 1)]] {})
        (dataframe (fun _ => false) [[("y", Value.vnum 1)]] {}) =
      dataframe (fun _ => false) [[("x", Value.vnum 1)]] {}) ∧
    (minus (fun _ => false) (dataframe (fun _ => false) [[("x", Value.vnum 1)], [("x", Value.vnum 2)]] {})
        (dataframe (fun _ => false) [[("x", Value.vnum 2)]] {})).data = [[("x", Value.vnum 1)]] := by
  constructor
  · exact ((claim5_minus_intersect (fun _ => false) _ _).1 (by decide)).1
  · have h := ((claim5_minus_intersect (fun _ => false)
      (dataframe (fun _ => false) [[("x", Value.vnum 1)], [("x", Value.vnum 2)]] {})
      (dataframe (fun _ => false) [[("x", Value.vnum 2)]] {})).2 (by decide)).1
    rw [h]
    rfl

/-- Claim C10: rollup on a dataframe with zero rows and at least one
registered summary throws (the metadata-building step reads the first
element of the empty aggregated output) instead of returning an empty
dataframe. -/
theorem claim10_rollup_empty_throws (oracle : String → Bool) (df : DF)
    (h1 : df.data = []) (h2 : df.config.summaries ≠ []) :
    rollup oracle df = .error "TypeError: buildMetadata reads the first aggregated row" := by
  have hs : df.config.summaries.isEmpty = false := by
    cases hh : df.config.summaries with
    | nil => exact absurd hh h2
    | cons a l => rfl
  unfold rollup
  rw [hs, Bool.and_false]
  simp only [Bool.false_eq_true, if_false]
  rw [h1]
  have hg : groupDataByKeys [] df.config.group_by df.config.summaries = some [] := rfl
  rw [hg]
  by_cases halign : df.config.align_by.isEmpty
  · simp only [halign, if_true]
    rfl
  · simp only [halign, Bool.false_eq_true, if_false]
    rfl

/-- Witness for claim C10: an empty dataframe with one registered
summary. -/
theorem claim10_witness :
    rollup (fun _ => false)
      (addSummary (dataframe (fun _ => false) [] {})
        { name := "total", mapper := fun _ => Value.vnull, reducer := fun _ => Value.vnull }) =
      .error "TypeError: buildMetadata reads the first aggregated row" :=
  claim10_rollup_empty_throws (fun _ => false) _ rfl (List.cons_ne_nil _ _)

/-- The leftJoin fold written as a flatMap, for reasoning about
membership and order. -/
theorem leftJoin_eq_flatMap (data other : List Row) (q : Row → Row → Bool)
    (rl rr : Row → Row) (t : String) :
    leftJoin data other q rl rr t = data.flatMap (fun x =>
      if ((other.filter (fun y => q x y)).map (fun y => Row.merge (rr y) (rl x))).isEmpty &&
          (t == "left" || t == "full") then [rl x]
      else (other.filter (fun y => q x y)).map (fun y => Row.merge (rr y) (rl x))) := by
  have h1 : leftJoin data other q rl rr t = data.foldl (fun acc x => acc ++
      (if ((other.filter (fun y => q x y)).map (fun y => Row.merge (rr y) (rl x))).isEmpty &&
          (t == "left" || t == "full") then [rl x]
      else (other.filter (fun y => q x y)).map (fun y => Row.merge (rr y) (rl x)))) [] := rfl
  rw [h1, foldl_append_bind]
  simp

/-- Claim C3 amended: rightJoin keeps the operand order; it emits one
merged row per matching pair (renamed right under renamed left, the left
fields taking precedence) and then appends each unmatched right row; it
is not the swapped leftJoin, whose merged rows would carry the right
operand's values on colliding keys. -/
theorem claim3_amended (oracle : String → Bool) (a b : DF) (q : Row → Row → Bool) :
    (rightJoinDF oracle a b q {}).data =
      (a.data.flatMap (fun x =>
        (b.data.filter (fun y => q x y)).map (fun y => Row.merge y x))) ++
      (b.data.filter (fun y => !(a.data.any (fun x => q x y)))) := by
  have hid : ∀ ks : List String, getDataRenamer ({} : RenameOpts) ks = id := fun _ => rfl
  have hdata : ∀ (d : List Row) (o : DfOptions), (dataframe oracle d o).data = d := fun _ _ => rfl
  rw [rightJoinDF, joinDataFrame]
  simp only [hid, hdata]
  rw [leftJoin_eq_flatMap]
  simp [List.map_id]

/-- Counterexample to claim C3: with single colliding rows, the right
join of a with b keeps the left value at the colliding key, while the
swapped left join (the flipped predicate of a constant predicate is
itself) keeps the other value, so the two do not produce the same rows,
not even up to deep equality. -/
theorem claim3_counterexample :
    (rightJoinDF (fun _ => false) (dataframe (fun _ => false) [[("k", Value.vnum 1)]] {})
        (dataframe (fun _ => false) [[("k", Value.vnum 2)]] {}) (fun _ _ => true) {}).data =
      [[("k", Value.vnum 1)]] ∧
    (leftJoinDF (fun _ => false) (dataframe (fun _ => false) [[("k", Value.vnum 2)]] {})
        (dataframe (fun _ => false) [[("k", Value.vnum 1)]] {}) (fun _ _ => true) {}).data =
      [[("k", Value.vnum 2)]] ∧
    jeqRow [("k", Value.vnum 1)] [("k", Value.vnum 2)] = false :=
  ⟨rfl, rfl, by decide⟩

/-- Claim C9 amended: with a filter armed and columns selected, the
predicate runs on the projected rows; hence a predicate that is false on
every row whose keys all lie in the selected columns (for example one
requiring a value at an unselected column) yields an empty result even
when original rows satisfy it, and the filter is reset. -/
theorem claim9_amended (df : DF) (p : Row → Bool) (cols : List String)
    (hcols : cols ≠ [])
    (hp : ∀ r : Row, (∀ k ∈ Row.keys r, k ∈ cols) → p r = false) :
    (select (whereDF df p) cols).1 = (df.data.map (fun row => Row.pick cols row)).filter p ∧
    (select (whereDF df p) cols).1 = [] ∧
    (select (whereDF df p) cols).2.config.filter = none := by
  have hlen : 0 < cols.length := List.length_pos.mpr hcols
  have hsel : (select (whereDF df p) cols).1 =
      (df.data.map (fun row => Row.pick cols row)).filter p := by
    rw [select]
    simp only [whereDF, if_pos hlen]
  refine ⟨hsel, ?_, rfl⟩
  rw [hsel]
  rw [List.filter_eq_nil_iff.mpr]
  intro a ha
  obtain ⟨r, hr, hrp⟩ := List.mem_map.mp ha
  subst hrp
  have := hp (Row.pick cols r) (fun k hk => Row.pick_keys_subset cols r k hk)
  simp [this]

/-- Witness for claim C9 amended: selecting y with a predicate requiring
a numeric value at the unselected column x. -/
theorem claim9_witness :
    (select (whereDF (dataframe (fun _ => false) [[("y", Value.vnum 1), ("x", Value.vnum 5)]] {})
        (fun r => match Row.get r "x" with
          | some (Value.vnum n) => n == 5
          | _ => false)) ["y"]).1 = [] := by
  have h := claim9_amended (dataframe (fun _ => false) [[("y", Value.vnum 1), ("x", Value.vnum 5)]] {})
    (fun r => match Row.get r "x" with
      | some (Value.vnum n) => n == 5
      | _ => false) ["y"] (by decide) ?_
  · exact h.2.1
  · intro r hk
    have hx : alGet r "x" = none := by
      apply alGet_eq_none_of_not_mem
      intro hmem
      have := hk "x" (by simpa using hmem)
      simp at this
    simp [hx]

/-- Counterexample to claim C9: a predicate depending only on the
unselected column x (it is invariant under changes to the selected
columns), satisfied by the original row, for which select still returns
a non-empty array: the projected row also satisfies it, because the
predicate holds when x is absent. -/
theorem claim9_counterexample :
    (∀ r₁ r₂ : Row, (∀ k : String, ¬ k ∈ ["y"] → Row.get r₁ k = Row.get r₂ k) →
      (fun r => (Row.get r "x").isNone) r₁ = (fun r => (Row.get r "x").isNone) r₂) ∧
    (fun r => (Row.get r "x").isNone) [("y", Value.vnum 1)] = true ∧
    (select (whereDF (dataframe (fun _ => false) [[("y", Value.vnum 1)]] {})
        (fun r => (Row.get r "x").isNone)) ["y"]).1 = [[("y", Value.vnum 1)]] := by
  refine ⟨?_, rfl, rfl⟩
  intro r₁ r₂ h
  have hx : alGet r₁ "x" = alGet r₂ "x" := h "x" (by decide)
  simp [hx]

theorem list_isEmpty_false_of_mem {α : Type} {a : α} {l : List α} (h : a ∈ l) :
    l.isEmpty = false := by
  cases l with
  | nil => cases h
  | cons x xs => rfl

/-- Claim C2: in every flat join, each matched output row is the merge of
the renamed right row under the renamed left row, the left fields taking
precedence: whenever the renamed left row holds a value at a key (in
particular at every colliding unrenamed field name), the merged row holds
the left value there. -/
theorem claim2_join_left_precedence (oracle : String → Bool) (df other : DF)
    (query : Row → Row → Bool) (opts : JoinOptions) (x y : Row)
    (hx : x ∈ df.data) (hy : y ∈ other.data) (hq : query x y = true)
    (hnd : (Row.keys (getDataRenamer opts.left (df.columns.map Prod.fst) x)).Nodup) :
    Row.merge (getDataRenamer opts.right (other.columns.map Prod.fst) y)
        (getDataRenamer opts.left (df.columns.map Prod.fst) x) ∈
      (joinDataFrame oracle df other query opts).data ∧
    (∀ k v, Row.get (getDataRenamer opts.left (df.columns.map Prod.fst) x) k = some v →
      Row.get (Row.merge (getDataRenamer opts.right (other.columns.map Prod.fst) y)
        (getDataRenamer opts.left (df.columns.map Prod.fst) x)) k = some v) := by
  constructor
  · have hdata : (joinDataFrame oracle df other query opts).data =
        (if opts.type == "full" || opts.type == "right" then
          leftJoin df.data other.data query
            (getDataRenamer opts.left (df.columns.map Prod.fst))
            (getDataRenamer opts.right (other.columns.map Prod.fst)) opts.type ++
            (other.data.filter (fun y => !(df.data.any (fun x => query x y)))).map
              (getDataRenamer opts.right (other.columns.map Prod.fst))
        else
          leftJoin df.data other.data query
            (getDataRenamer opts.left (df.columns.map Prod.fst))
            (getDataRenamer opts.right (other.columns.map Prod.fst)) opts.type) := rfl
    have hmemij : Row.merge (getDataRenamer opts.right (other.columns.map Prod.fst) y)
        (getDataRenamer opts.left (df.columns.map Prod.fst) x) ∈
        leftJoin df.data other.data query
          (getDataRenamer opts.left (df.columns.map Prod.fst))
          (getDataRenamer opts.right (other.columns.map Prod.fst)) opts.type := by
      rw [leftJoin_eq_flatMap]
      apply List.mem_flatMap.mpr
      refine ⟨x, hx, ?_⟩
      have hyf : y ∈ other.data.filter (fun y => query x y) := List.mem_filter.mpr ⟨hy, hq⟩
      have hm : Row.merge (getDataRenamer opts.right (other.columns.map Prod.fst) y)
          (getDataRenamer opts.left (df.columns.map Prod.fst) x) ∈
          (other.data.filter (fun y => query x y)).map
            (fun y => Row.merge (getDataRenamer opts.right (other.columns.map Prod.fst) y)
              (getDataRenamer opts.left (df.columns.map Prod.fst) x)) :=
        List.mem_map_of_mem _ hyf
      rw [if_neg]
      · exact hm
      · rw [list_isEmpty_false_of_mem hm]
        simp
  
    rw [hdata]
    by_cases ht : (opts.type == "full" || opts.type == "right") = true
    · rw [if_pos ht]
      exact List.mem_append_left _ hmemij
    · rw [if_neg ht]
      exact hmemij
  · intro k v hv
    rw [Row.get_merge _ _ _ hnd, hv]

/-- Witness for claim C2: joining on equal id columns, the colliding id
field keeps the left value in the merged row. -/
theorem claim2_witness :
    Row.merge [("id", Value.vnum 1), ("age", Value.vnum 9)]
        [("id", Value.vnum 1), ("name", Value.vstr "x")] ∈
      (joinDataFrame (fun _ => false)
        (dataframe (fun _ => false) [[("id", Value.vnum 1), ("name", Value.vstr "x")]] {})
        (dataframe (fun _ => false) [[("id", Value.vnum 1), ("age", Value.vnum 9)]] {})
        (fun a b =>
          match Row.get a "id", Row.get b "id" with
          | some (Value.vnum n), some (Value.vnum m) => n == m
          | _, _ => false) {}).data ∧
    Row.get (Row.merge [("id", Value.vnum 1), ("age", Value.vnum 9)]
        [("id", Value.vnum 1), ("name", Value.vstr "x")]) "id" = some (Value.vnum 1) := by
  have h := claim2_join_left_precedence (fun _ => false)
    (dataframe (fun _ => false) [[("id", Value.vnum 1), ("name", Value.vstr "x")]] {})
    (dataframe (fun _ => false) [[("id", Value.vnum 1), ("age", Value.vnum 9)]] {})
    (fun a b =>
      match Row.get a "id", Row.get b "id" with
      | some (Value.vnum n), some (Value.vnum m) => n == m
      | _, _ => false) {}
    [("id", Value.vnum 1), ("name", Value.vstr "x")]
    [("id", Value.vnum 1), ("age", Value.vnum 9)]
    (List.mem_singleton.mpr rfl) (List.mem_singleton.mpr rfl) (by decide) (by decide)
  exact ⟨h.1, h.2 "id" (Value.vnum 1) rfl⟩

theorem names_append_nodup (ms : List ColMeta) (m : ColMeta)
    (hms : (ms.map ColMeta.name).Nodup) (hnot : ∀ x ∈ ms, x.name ≠ m.name) :
    ((ms ++ [m]).map ColMeta.name).Nodup := by
  rw [List.map_append]
  refine List.Nodup.append hms (by simp) ?_
  intro a ha hb
  simp only [List.map_singleton, List.mem_singleton] at hb
  subst hb
  obtain ⟨xa, hxa, hfa⟩ := List.mem_map.mp ha
  exact hnot xa hxa hfa

theorem combineGo_conflict_error (second : List ColMeta) : ∀ (ms : List ColMeta),
    (ms.map ColMeta.name).Nodup → (second.map ColMeta.name).Nodup →
    (∃ m ∈ second, ∃ x ∈ ms, x.name = m.name ∧ x.type ≠ m.type) →
    ∃ msg, combineMetadataGo false ms second = .error msg := by
  induction second with
  | nil =>
      intro ms _ _ h
      simp at h
  | cons m rest ih =>
      intro ms hms hsec hconf
      simp only [List.map_cons, List.nodup_cons] at hsec
      obtain ⟨hmname, hrest⟩ := hsec
      rw [combineMetadataGo]
      cases hfind : ms.find? (fun x => x.name == m.name) with
      | some existing =>
          have hexname : existing.name = m.name := by
            have := List.find?_some hfind
            simpa using this
          have hexmem := List.mem_of_find?_eq_some hfind
          dsimp only
          rw [if_neg (by decide : ¬(false = true))]
          by_cases htype : existing.type = m.type
          · rw [if_neg (fun hc => hc htype)]
            apply ih ms hms hrest
            obtain ⟨m', hm', x, hx, hn, ht⟩ := hconf
            rcases List.mem_cons.mp hm' with rfl | hm'rest
            · exfalso
              have hxeq : x = existing :=
                List.inj_on_of_nodup_map hms hx hexmem (by rw [hn, hexname])
              rw [hxeq, htype] at ht
              exact ht rfl
            · exact ⟨m', hm'rest, x, hx, hn, ht⟩
          · rw [if_pos htype]
            exact ⟨_, rfl⟩
      | none =>
          have hnone : ∀ x ∈ ms, x.name ≠ m.name := by
            intro x hx
            have := List.find?_eq_none.mp hfind x hx
            simpa using this
          have hms' := names_append_nodup ms (ColMeta.mk m.name m.type none) hms
            (by simpa [ColMeta.name] using hnone)
          dsimp only
          apply ih _ hms' hrest
          obtain ⟨m', hm', x, hx, hn, ht⟩ := hconf
          rcases List.mem_cons.mp hm' with rfl | hm'rest
          · exact absurd hn (hnone x hx)
          · exact ⟨m', hm'rest, x, List.mem_append_left _ hx, hn, ht⟩

theorem combineGo_error_conflict (second : List ColMeta) : ∀ (ms : List ColMeta),
    (ms.map ColMeta.name).Nodup → (second.map ColMeta.name).Nodup →
    ∀ msg, combineMetadataGo false ms second = .error msg →
    ∃ m ∈ second, ∃ x ∈ ms, x.name = m.name ∧ x.type ≠ m.type ∧
      msg = "Metadata conflict: " ++ m.name ++ " has conflicting types" := by
  induction second with
  | nil =>
      intro ms _ _ msg h
      simp [combineMetadataGo] at h
  | cons m rest ih =>
      intro ms hms hsec msg h
      simp only [List.map_cons, List.nodup_cons] at hsec
      obtain ⟨hmname, hrest⟩ := hsec
      rw [combineMetadataGo] at h
      cases hfind : ms.find? (fun x => x.name == m.name) with
      | some existing =>
          have hexname : existing.name = m.name := by
            have := List.find?_some hfind
            simpa using this
          have hexmem := List.mem_of_find?_eq_some hfind
          rw [hfind] at h
          dsimp only at h
          rw [if_neg (by decide : ¬(false = true))] at h
          by_cases htype : existing.type = m.type
          · rw [if_neg (fun hc => hc htype)] at h
            obtain ⟨m', hm', x, hx, hn, ht, hmsg⟩ := ih ms hms hrest msg h
            exact ⟨m', List.mem_cons_of_mem m hm', x, hx, hn, ht, hmsg⟩
          · rw [if_pos htype] at h
            refine ⟨m, List.mem_cons_self m rest, existing, hexmem, hexname, htype, ?_⟩
            cases h
            rfl
      | none =>
          have hnone : ∀ x ∈ ms, x.name ≠ m.name := by
            intro x hx
            have := List.find?_eq_none.mp hfind x hx
            simpa using this
          have hms' := names_append_nodup ms (ColMeta.mk m.name m.type none) hms
            (by simpa [ColMeta.name] using hnone)
          rw [hfind] at h
          dsimp only at h
          obtain ⟨m', hm', x, hx, hn, ht, hmsg⟩ := ih _ hms' hrest msg h
          rcases List.mem_append.mp hx with hxms | hxnew
          · exact ⟨m', List.mem_cons_of_mem m hm', x, hxms, hn, ht, hmsg⟩
          · exfalso
            simp only [List.mem_singleton] at hxnew
            subst hxnew
            apply hmname
            have hn' : m.name = m'.name := hn
            rw [hn']
            exact List.mem_map_of_mem ColMeta.name hm'

theorem combineGo_ok_shape (second : List ColMeta) : ∀ (ms : List ColMeta),
    (ms.map ColMeta.name).Nodup → (second.map ColMeta.name).Nodup →
    ∀ r, combineMetadataGo false ms second = .ok r →
    r = ms ++ (second.filter (fun m => !(ms.any (fun x => x.name == m.name)))).map
      (fun m => ColMeta.mk m.name m.type none) := by
  induction second with
  | nil =>
      intro ms _ _ r h
      simp [combineMetadataGo] at h
      simp [h.symm]
  | cons m rest ih =>
      intro ms hms hsec r h
      simp only [List.map_cons, List.nodup_cons] at hsec
      obtain ⟨hmname, hrest⟩ := hsec
      rw [combineMetadataGo] at h
      cases hfind : ms.find? (fun x => x.name == m.name) with
      | some existing =>
          have hexname : existing.name = m.name := by
            have := List.find?_some hfind
            simpa using this
          have hexmem := List.mem_of_find?_eq_some hfind
          rw [hfind] at h
          dsimp only at h
          rw [if_neg (by decide : ¬(false = true))] at h
          by_cases htype : existing.type = m.type
          · rw [if_neg (fun hc => hc htype)] at h
            have hr := ih ms hms hrest r h
            have hdrop : (ms.any (fun x => x.name == m.name)) = true := by
              apply List.any_eq_true.mpr
              exact ⟨existing, hexmem, by simp [hexname]⟩
            rw [hr, List.filter_cons]
            simp [hdrop]
          · rw [if_pos htype] at h
            cases h
      | none =>
          have hnone : ∀ x ∈ ms, x.name ≠ m.name := by
            intro x hx
            have := List.find?_eq_none.mp hfind x hx
            simpa using this
          have hms' := names_append_nodup ms (ColMeta.mk m.name m.type none) hms
            (by simpa [ColMeta.name] using hnone)
          rw [hfind] at h
          dsimp only at h
          have hr := ih _ hms' hrest r h
          have hkeep : (ms.any (fun x => x.name == m.name)) = false := by
            apply List.any_eq_false.mpr
            intro x hx
            simp [hnone x hx]
          have hfiltereq : rest.filter (fun m' =>
              !((ms ++ [ColMeta.mk m.name m.type none]).any (fun x => x.name == m'.name))) =
              rest.filter (fun m' => !(ms.any (fun x => x.name == m'.name))) := by
            apply List.filter_congr
            intro m' hm'
            have hm'name : m'.name ≠ m.name := by
              intro hc
              apply hmname
              rw [← hc]
              exact List.mem_map_of_mem ColMeta.name hm'
            simp only [List.any_append]
            have hsing : ([ColMeta.mk m.name m.type none].any (fun x => x.name == m'.name)) = false := by
              simp [ColMeta.name]
              exact fun hc => hm'name hc.symm
            rw [hsing, Bool.or_false]
          rw [hr, hfiltereq, List.filter_cons]
          simp only [hkeep, Bool.not_false, if_pos]
          simp

/-- Claim C4 amended: union throws a schema-conflict error naming an
offending column exactly when some column name occurs in both schemas
with different type tags (schemas with unique names); on success the rows
are the concatenation without de-duplication and the schema is the left
schema followed by, for each right column whose name is new, an entry
carrying that column's name and type (nested array metadata of the
appended right columns is not carried over). -/
theorem claim4_amended (oracle : String → Bool) (a b : DF)
    (hna : (a.metadata.map ColMeta.name).Nodup)
    (hnb : (b.metadata.map ColMeta.name).Nodup)
    (hne : ¬(a.metadata = [] ∧ b.metadata = [])) :
    ((∃ m ∈ b.metadata, ∃ x ∈ a.metadata, x.name = m.name ∧ x.type ≠ m.type) ↔
      ∃ msg, union oracle a b = .error msg) ∧
    (∀ msg, union oracle a b = .error msg →
      ∃ m ∈ b.metadata, ∃ x ∈ a.metadata, x.name = m.name ∧ x.type ≠ m.type ∧
        msg = "Metadata conflict: " ++ m.name ++ " has conflicting types") ∧
    (∀ r, union oracle a b = .ok r →
      r.data = a.data ++ b.data ∧
      r.metadata = a.metadata ++
        (b.metadata.filter (fun m => !(a.metadata.any (fun x => x.name == m.name)))).map
          (fun m => ColMeta.mk m.name m.type none)) := by
  have hunion : ∀ e, combineMetadata a.metadata b.metadata false = .error e →
      union oracle a b = .error e := by
    intro e he
    rw [union, he]
    rfl
  have hunion2 : ∀ md, combineMetadata a.metadata b.metadata false = .ok md →
      union oracle a b = .ok (dataframe oracle (a.data ++ b.data) { metadata := some md }) := by
    intro md hmd
    rw [union, hmd]
    rfl
  refine ⟨⟨?_, ?_⟩, ?_, ?_⟩
  · intro hconf
    obtain ⟨msg, hmsg⟩ := combineGo_conflict_error b.metadata a.metadata hna hnb hconf
    exact ⟨msg, hunion msg hmsg⟩
  · rintro ⟨msg, hmsg⟩
    cases hcomb : combineMetadata a.metadata b.metadata false with
    | ok md =>
        rw [hunion2 md hcomb] at hmsg
        cases hmsg
    | error e =>
        obtain ⟨m, hm, x, hx, hn, ht, -⟩ :=
          combineGo_error_conflict b.metadata a.metadata hna hnb e hcomb
        exact ⟨m, hm, x, hx, hn, ht⟩
  · intro msg hmsg
    cases hcomb : combineMetadata a.metadata b.metadata false with
    | ok md =>
        rw [hunion2 md hcomb] at hmsg
        cases hmsg
    | error e =>
        have heq : msg = e := by
          rw [hunion e hcomb] at hmsg
          cases hmsg
          rfl
        subst heq
        exact combineGo_error_conflict b.metadata a.metadata hna hnb msg hcomb
  · intro r hr
    cases hcomb : combineMetadata a.metadata b.metadata false with
    | error e =>
        rw [hunion e hcomb] at hr
        cases hr
    | ok md =>
        rw [hunion2 md hcomb] at hr
        have hshape := combineGo_ok_shape b.metadata a.metadata hna hnb md hcomb
        have hmdne : md ≠ [] := by
          rw [hshape]
          intro hcontra
          rcases List.append_eq_nil.mp hcontra with ⟨h1, h2⟩
          apply hne
          refine ⟨h1, ?_⟩
          have hfil : b.metadata.filter
              (fun m => !(a.metadata.any (fun x => x.name == m.name))) = [] :=
            List.map_eq_nil_iff.mp h2
          cases hb : b.metadata with
          | nil => rfl
          | cons mb rest =>
              exfalso
              rw [h1] at hfil
              rw [hb] at hfil
              simp [List.filter_cons] at hfil
    
        cases hr
        constructor
        · rfl
        · have hmeta : (dataframe oracle (a.data ++ b.data) { metadata := some md }).metadata
              = md := by
            rw [dataframe]
            rw [show deriveColumnMetadata oracle (a.data ++ b.data) { metadata := some md } =
              if 0 < md.length then md
              else deriveMetadataFromData oracle false (a.data ++ b.data) from rfl]
            rw [if_pos (by
              cases hmd : md with
              | nil => exact absurd hmd hmdne
              | cons x xs => simp)]
          rw [hmeta, hshape]

/-- Counterexample to claim C4: a right-side array column with nested
metadata that is absent on the left is appended as a bare name-and-type
entry, dropping its nested metadata, so the result schema is not made of
the right columns themselves. -/
theorem claim4_counterexample :
    ((union (fun _ => false)
        (dataframe (fun _ => false) [] {})
        (dataframe (fun _ => false) []
          { metadata := some [ColMeta.mk "c" "array" (some [ColMeta.mk "x" "integer" none])] })).toOption.map
      (fun d => d.metadata.map (fun m => (ColMeta.meta m).isSome))) = some [false] ∧
    (dataframe (fun _ => false) []
      { metadata := some [ColMeta.mk "c" "array" (some [ColMeta.mk "x" "integer" none])] }).metadata.map
        (fun m => (ColMeta.meta m).isSome) = [true] :=
  ⟨rfl, rfl⟩

/-- Witness for claim C4: the union of integer x with string x fails with
the schema conflict (scenario 5 of the specification). -/
theorem claim4_witness :
    ∃ msg, union (fun _ => false)
      (dataframe (fun _ => false) [[("x", Value.vnum 1)]] {})
      (dataframe (fun _ => false) [[("x", Value.vstr "s")]] {}) = .error msg := by
  apply (claim4_amended (fun _ => false)
    (dataframe (fun _ => false) [[("x", Value.vnum 1)]] {})
    (dataframe (fun _ => false) [[("x", Value.vstr "s")]] {})
    (by decide) (by decide)
    (by rintro ⟨h1, -⟩; exact List.cons_ne_nil _ _ h1)).1.mp
  refine ⟨ColMeta.mk "x" "string" none, List.mem_singleton.mpr rfl,
    ColMeta.mk "x" "integer" none, List.mem_singleton.mpr rfl, rfl, by decide⟩

theorem string_append_cancel_left (s a b : String) (h : s ++ a = s ++ b) : a = b := by
  have hd : s.data ++ a.data = s.data ++ b.data := by
    have := congrArg String.data h
    simpa [String.data_append] using this
  have hab := List.append_cancel_left hd
  cases a
  cases b
  exact congrArg String.mk hab

theorem string_append_cancel_right (s a b : String) (h : a ++ s = b ++ s) : a = b := by
  have hd : a.data ++ s.data = b.data ++ s.data := by
    have := congrArg String.data h
    simpa [String.data_append] using this
  have hab := List.append_cancel_right hd
  cases a
  cases b
  exact congrArg String.mk hab

theorem getAttributeRenamer_injective (o : RenameOpts) :
    Function.Injective (getAttributeRenamer o) := by
  obtain ⟨op, os, sep⟩ := o
  cases op with
  | some p =>
      intro x y h
      have h' : p ++ sep ++ x = p ++ sep ++ y := h
      rw [String.append_assoc, String.append_assoc] at h'
      have := string_append_cancel_left p (sep ++ x) (sep ++ y) h'
      exact string_append_cancel_left sep x y this
  | none =>
      cases os with
      | some s =>
          intro x y h
          have h' : x ++ sep ++ s = y ++ sep ++ s := h
          have := string_append_cancel_right s (x ++ sep) (y ++ sep) h'
          exact string_append_cancel_right sep x y this
      | none => exact fun x y h => h

theorem getDeepScanSample_keys_nodup (data : List Row) :
    ((getDeepScanSample data).map Prod.fst).Nodup := by
  rw [getDeepScanSample]
  have main : ∀ (l : List Row) (acc : Row), (Row.keys acc).Nodup →
      (Row.keys (l.foldl (fun acc cur =>
        Row.merge acc (compactRow (Row.omit (Row.keys acc) cur))) acc)).Nodup := by
    intro l
    induction l with
    | nil => intro acc h; exact h
    | cons cur rest ih =>
        intro acc h
        simp only [List.foldl_cons]
        exact ih _ (keys_merge_nodup acc _ h)
  exact main data [] (by simp)

theorem deriveMetadataFromData_names_nodup (oracle : String → Bool) (deepScan : Bool)
    (data : List Row) (hrows : ∀ r ∈ data, (Row.keys r).Nodup) :
    ((deriveMetadataFromData oracle deepScan data).map ColMeta.name).Nodup := by
  cases data with
  | nil => exact List.nodup_nil
  | cons r rest =>
      have hunfold : deriveMetadataFromData oracle deepScan (r :: rest) =
          (if deepScan then getDeepScanSample (r :: rest) else r).map
            (fun e => ColMeta.mk e.1 (getType oracle e.2) none) := rfl
      have hnames : ∀ sample : Row,
          ((sample.map (fun e => ColMeta.mk e.1 (getType oracle e.2) none)).map ColMeta.name) =
            sample.map Prod.fst := by
        intro sample
        rw [List.map_map]
        rfl
      rw [hunfold]
      by_cases hds : deepScan = true
      · rw [if_pos hds, hnames]
        exact getDeepScanSample_keys_nodup (r :: rest)
      · rw [if_neg hds, hnames]
        exact hrows r (List.mem_cons_self r rest)

theorem dataframe_names_nodup (oracle : String → Bool) (data : List Row) (options : DfOptions)
    (hm : ∀ ms, options.metadata = some ms → 0 < ms.length → (ms.map ColMeta.name).Nodup)
    (hrows : ∀ r ∈ data, (Row.keys r).Nodup) :
    (((dataframe oracle data options).metadata).map ColMeta.name).Nodup := by
  have hmeta : (dataframe oracle data options).metadata =
      deriveColumnMetadata oracle data options := rfl
  rw [hmeta, deriveColumnMetadata]
  cases hopt : options.metadata with
  | some ms =>
      dsimp only
      by_cases hlen : 0 < ms.length
      · rw [if_pos hlen]
        exact hm ms hopt hlen
      · rw [if_neg hlen]
        exact deriveMetadataFromData_names_nodup oracle options.deepScan data hrows
  | none => exact deriveMetadataFromData_names_nodup oracle options.deepScan data hrows

theorem updateFirst_map_name (p : ColMeta → Bool) (f : ColMeta → ColMeta)
    (hf : ∀ x, (f x).name = x.name) (l : List ColMeta) :
    (updateFirst p f l).map ColMeta.name = l.map ColMeta.name := by
  induction l with
  | nil => rfl
  | cons x rest ih =>
      by_cases hp : p x
      · simp [updateFirst, hp, hf x]
      · simp [updateFirst, hp, ih]

theorem combineGo_names_nodup (ov : Bool) (second : List ColMeta) : ∀ (ms : List ColMeta),
    (ms.map ColMeta.name).Nodup → ∀ r, combineMetadataGo ov ms second = .ok r →
    (r.map ColMeta.name).Nodup := by
  induction second with
  | nil =>
      intro ms hms r h
      simp [combineMetadataGo] at h
      rw [← h]
      exact hms
  | cons m rest ih =>
      intro ms hms r h
      rw [combineMetadataGo] at h
      cases hfind : ms.find? (fun x => x.name == m.name) with
      | some existing =>
          rw [hfind] at h
          dsimp only at h
          by_cases hov : ov = true
          · rw [if_pos hov] at h
            apply ih _ ?_ r h
            rw [updateFirst_map_name (fun x => x.name == m.name)
              (fun x => ColMeta.mk x.name m.type x.meta) (fun x => rfl) ms]
            exact hms
          · rw [if_neg hov] at h
            by_cases htype : existing.type = m.type
            · rw [if_neg (fun hc => hc htype)] at h
              exact ih ms hms r h
            · rw [if_pos htype] at h
              cases h
      | none =>
          have hnone : ∀ x ∈ ms, x.name ≠ m.name := by
            intro x hx
            have := List.find?_eq_none.mp hfind x hx
            simpa using this
          rw [hfind] at h
          dsimp only at h
          exact ih _ (names_append_nodup ms (ColMeta.mk m.name m.type none) hms
            (by simpa [ColMeta.name] using hnone)) r h

theorem buildMetadata_step_names (oracle : String → Bool) (d0 : Row) :
    ∀ (summaries : List Summary) (ms r : List ColMeta),
    optFoldM (fun ms s =>
      let v := (Row.get d0 s.name).getD .vundef
      let t := getType oracle v
      if t == "array" then
        match v with
        | .varr xs =>
            (deriveColumnMetadataFromValues oracle xs).map
              (fun nested => ms ++ [ColMeta.mk s.name t (some nested)])
        | _ => none
      else some (ms ++ [ColMeta.mk s.name t none])) ms summaries = some r →
    r.map ColMeta.name = ms.map ColMeta.name ++ summaries.map Summary.name := by
  intro summaries
  induction summaries with
  | nil =>
      intro ms r h
      simp [optFoldM] at h
      rw [← h]
      simp
  | cons s rest ih =>
      intro ms r h
      rw [optFoldM] at h
      have hone : ∀ ms', (let v := (Row.get d0 s.name).getD .vundef
          let t := getType oracle v
          if t == "array" then
            match v with
            | .varr xs =>
                (deriveColumnMetadataFromValues oracle xs).map
                  (fun nested => ms ++ [ColMeta.mk s.name t (some nested)])
            | _ => none
          else some (ms ++ [ColMeta.mk s.name t none])) = some ms' →
          ms'.map ColMeta.name = ms.map ColMeta.name ++ [s.name] := by
        intro ms' hstep
        dsimp only at hstep
        by_cases harr : (getType oracle ((Row.get d0 s.name).getD .vundef)) == "array"
        · rw [if_pos harr] at hstep
          cases hv : (Row.get d0 s.name).getD .vundef with
          | varr xs =>
              rw [hv] at hstep
              dsimp only at hstep
              cases hd : deriveColumnMetadataFromValues oracle xs with
              | none => rw [hd] at hstep; cases hstep
              | some nested =>
                  rw [hd] at hstep
                  cases hstep
                  simp [ColMeta.name]
          | vundef => rw [hv] at hstep; dsimp only at hstep; cases hstep
          | vnull => rw [hv] at hstep; dsimp only at hstep; cases hstep
          | vbool b => rw [hv] at hstep; dsimp only at hstep; cases hstep
          | vnum q => rw [hv] at hstep; dsimp only at hstep; cases hstep
          | vdate d => rw [hv] at hstep; dsimp only at hstep; cases hstep
          | vstr t => rw [hv] at hstep; dsimp only at hstep; cases hstep
          | vobj o => rw [hv] at hstep; dsimp only at hstep; cases hstep
        · rw [if_neg harr] at hstep
          cases hstep
          simp [ColMeta.name]
      cases hstep : (let v := (Row.get d0 s.name).getD .vundef
          let t := getType oracle v
          if t == "array" then
            match v with
            | .varr xs =>
                (deriveColumnMetadataFromValues oracle xs).map
                  (fun nested => ms ++ [ColMeta.mk s.name t (some nested)])
            | _ => none
          else some (ms ++ [ColMeta.mk s.name t none])) with
      | none => rw [hstep] at h; cases h
      | some ms' =>
          rw [hstep] at h
          have := ih ms' r h
          rw [this, hone ms' hstep]
          simp

theorem dataframe_metadata_of_ne_nil (oracle : String → Bool) (d : List Row)
    (ms : List ColMeta) (h : ms ≠ []) :
    (dataframe oracle d { metadata := some ms }).metadata = ms := by
  have hunf : (dataframe oracle d { metadata := some ms }).metadata =
      if 0 < ms.length then ms else deriveMetadataFromData oracle false d := rfl
  rw [hunf, if_pos]
  cases ms with
  | nil => exact absurd rfl h
  | cons x xs => simp

theorem rollup_ok_inv (oracle : String → Bool) (df : DF) (r : DF)
    (hsum : df.config.summaries ≠ []) (h : rollup oracle df = .ok r) :
    ∃ aggregated newMetadata,
      buildMetadata oracle aggregated df.metadata df.config.group_by
        df.config.summaries = some newMetadata ∧
      r = dataframe oracle aggregated { metadata := some newMetadata } := by
  have hs : df.config.summaries.isEmpty = false := by
    cases hh : df.config.summaries with
    | nil => exact absurd hh hsum
    | cons a l => rfl
  unfold rollup at h
  rw [hs, Bool.and_false] at h
  simp only [Bool.false_eq_true, if_false] at h
  cases hg : groupDataByKeys df.data df.config.group_by df.config.summaries with
  | none => rw [hg] at h; cases h
  | some grouped =>
      rw [hg] at h
      dsimp only at h
      cases hstep : (if df.config.align_by.isEmpty then some (grouped.map Prod.snd)
          else fillAlignedData grouped df.config (getAlignGenerator df.data df.config)) with
      | none => rw [hstep] at h; cases h
      | some aligned =>
          rw [hstep] at h
          dsimp only at h
          cases hagg : aggregateData aligned df.config.summaries with
          | none => rw [hagg] at h; cases h
          | some aggregated =>
              rw [hagg] at h
              dsimp only at h
              cases hbm : buildMetadata oracle aggregated df.metadata df.config.group_by
                  df.config.summaries with
              | none => rw [hbm] at h; cases h
              | some newMetadata =>
                  rw [hbm] at h
                  dsimp only at h
                  refine ⟨aggregated, newMetadata, hbm, ?_⟩
                  injection h with h2
                  exact h2.symm

theorem buildMetadata_names (oracle : String → Bool) (data : List Row)
    (oldMetadata : List ColMeta) (gk : List String) (summaries : List Summary)
    (nm : List ColMeta) (h : buildMetadata oracle data oldMetadata gk summaries = some nm) :
    nm.map ColMeta.name =
      ((oldMetadata.filter (fun m => gk.contains m.name)).map ColMeta.name) ++
        summaries.map Summary.name := by
  rw [buildMetadata.eq_def] at h
  cases data with
  | nil => cases h
  | cons d0 rest =>
      exact buildMetadata_step_names oracle d0 summaries _ nm h

/-- Claim C7 amended: schema names stay unique for construction from data
(rows with unique keys, derived schema), for flat joins, for union when
it succeeds, for minus, intersect and drop, and for nestedJoin exactly
when the children field name is not already a parent column; a
nestedJoin whose parent already has a column named like the children
field duplicates that name (the counterexample; rename with two sources
mapped to one target and rollup with a summary field named like a group
column can likewise duplicate), and rollup preserves uniqueness provided
the summary output names are distinct and none equals a group-by
column. -/
theorem claim7_amended (oracle : String → Bool) :
    (∀ data : List Row, (∀ r ∈ data, (Row.keys r).Nodup) →
      (((dataframe oracle data {}).metadata).map ColMeta.name).Nodup) ∧
    (∀ (a b : DF) (q : Row → Row → Bool) (opts : JoinOptions),
      (a.metadata.map ColMeta.name).Nodup → (b.metadata.map ColMeta.name).Nodup →
      ¬(a.metadata = [] ∧ b.metadata = []) →
      (((joinDataFrame oracle a b q opts).metadata).map ColMeta.name).Nodup) ∧
    (∀ (child parent : DF) (u : Row → Row → Bool) (cname : String),
      (parent.metadata.map ColMeta.name).Nodup →
      ¬ cname ∈ parent.metadata.map ColMeta.name →
      (((nestedJoin oracle child parent u cname).metadata).map ColMeta.name).Nodup) ∧
    (∀ (a b : DF) (r : DF),
      (a.metadata.map ColMeta.name).Nodup → (b.metadata.map ColMeta.name).Nodup →
      ¬(a.metadata = [] ∧ b.metadata = []) →
      union oracle a b = .ok r → ((r.metadata).map ColMeta.name).Nodup) ∧
    (∀ (a b : DF), (a.metadata.map ColMeta.name).Nodup → a.metadata ≠ [] →
      (((minus oracle a b).metadata).map ColMeta.name).Nodup) ∧
    (∀ (a b : DF), (a.metadata.map ColMeta.name).Nodup → a.metadata ≠ [] →
      (((intersect oracle a b).metadata).map ColMeta.name).Nodup) ∧
    (∀ (a : DF) (fields : List String), (a.metadata.map ColMeta.name).Nodup →
      a.metadata.filter (fun col => !(fields.contains col.name)) ≠ [] →
      (((dropColumns oracle a fields).metadata).map ColMeta.name).Nodup) ∧
    (∀ (a : DF) (v : Row), (a.metadata.map ColMeta.name).Nodup →
      (((updateRows oracle a v).metadata).map ColMeta.name).Nodup) ∧
    (∀ (df r : DF), (df.metadata.map ColMeta.name).Nodup →
      (df.config.summaries.map Summary.name).Nodup →
      (∀ s ∈ df.config.summaries, ¬ df.config.group_by.contains s.name) →
      df.config.summaries ≠ [] →
      rollup oracle df = .ok r → ((r.metadata).map ColMeta.name).Nodup) := by
  refine ⟨?_, ?_, ?_, ?_, ?_, ?_, ?_, ?_, ?_⟩
  · -- construction
    intro data hrows
    exact dataframe_names_nodup oracle data {} (fun ms hms => by cases hms) hrows
  · -- flat join
    intro a b q opts hna hnb hne
    have hinjl := getAttributeRenamer_injective opts.left
    have hinjr := getAttributeRenamer_injective opts.right
    have hLnames : ((a.metadata.map (fun m =>
        ColMeta.mk (getAttributeRenamer opts.left m.name) m.type m.meta)).map ColMeta.name) =
        (a.metadata.map ColMeta.name).map (getAttributeRenamer opts.left) := by
      rw [List.map_map, List.map_map]
      rfl
    have hRnames0 : ((b.metadata.map (fun m =>
        ColMeta.mk (getAttributeRenamer opts.right m.name) m.type m.meta)).map ColMeta.name) =
        (b.metadata.map ColMeta.name).map (getAttributeRenamer opts.right) := by
      rw [List.map_map, List.map_map]
      rfl
    have hLnodup : ((a.metadata.map (fun m =>
        ColMeta.mk (getAttributeRenamer opts.left m.name) m.type m.meta)).map ColMeta.name).Nodup := by
      rw [hLnames]
      exact List.Nodup.map hinjl hna
    have hRnodup0 : ((b.metadata.map (fun m =>
        ColMeta.mk (getAttributeRenamer opts.right m.name) m.type m.meta)).map ColMeta.name).Nodup := by
      rw [hRnames0]
      exact List.Nodup.map hinjr hnb
    have hL := a.metadata.map (fun m =>
        ColMeta.mk (getAttributeRenamer opts.left m.name) m.type m.meta)
    have hcomb : (joinDataFrame oracle a b q opts).metadata =
        (a.metadata.map (fun m => ColMeta.mk (getAttributeRenamer opts.left m.name) m.type m.meta)) ++
        ((b.metadata.map (fun m => ColMeta.mk (getAttributeRenamer opts.right m.name) m.type m.meta)).filter
          (fun y => !((a.metadata.map (fun m =>
            ColMeta.mk (getAttributeRenamer opts.left m.name) m.type m.meta)).any
              (fun x => x.name == y.name)))) := by
      apply dataframe_metadata_of_ne_nil oracle
      intro hcontra
      rcases List.append_eq_nil.mp hcontra with ⟨h1, h2⟩
      have ha : a.metadata = [] := List.map_eq_nil_iff.mp h1
      rw [ha] at h2
      simp only [List.map_nil, List.any_nil, Bool.not_false, List.filter_true] at h2
      have hb : b.metadata = [] := List.map_eq_nil_iff.mp h2
      exact hne ⟨ha, hb⟩
    rw [hcomb, List.map_append]
    apply List.Nodup.append hLnodup
    · exact List.Nodup.sublist
        (List.Sublist.map ColMeta.name (List.filter_sublist _)) hRnodup0
    · intro n hnL hnR
      obtain ⟨y, hy, hyn⟩ := List.mem_map.mp hnR
      have hyp := (List.mem_filter.mp hy).2
      have hany : ((a.metadata.map (fun m =>
          ColMeta.mk (getAttributeRenamer opts.left m.name) m.type m.meta)).any
            (fun x => x.name == y.name)) = false := by
        cases hcase : ((a.metadata.map (fun m =>
            ColMeta.mk (getAttributeRenamer opts.left m.name) m.type m.meta)).any
              (fun x => x.name == y.name)) with
        | false => rfl
        | true => rw [hcase] at hyp; cases hyp
      obtain ⟨x, hx, hxn⟩ := List.mem_map.mp hnL
      have := List.any_eq_false.mp hany x hx
      apply this
      rw [hxn, hyn]
      simp
  · -- nestedJoin
    intro child parent u cname hp hfresh
    have hmeta : (nestedJoin oracle child parent u cname).metadata =
        parent.metadata ++ [ColMeta.mk cname "array" (some child.metadata)] := by
      apply dataframe_metadata_of_ne_nil oracle
      intro hcontra
      rcases List.append_eq_nil.mp hcontra with ⟨-, h2⟩
      cases h2
    rw [hmeta]
    apply names_append_nodup parent.metadata _ hp
    intro x hx hc
    apply hfresh
    rw [show ColMeta.name (ColMeta.mk cname "array" (some child.metadata)) = cname from rfl] at hc
    rw [← hc]
    exact List.mem_map_of_mem ColMeta.name hx
  · -- union
    intro a b r hna hnb hne hu
    cases hcomb : combineMetadata a.metadata b.metadata false with
    | error e =>
        rw [union, hcomb] at hu
        cases hu
    | ok md =>
        have hu2 : union oracle a b =
            .ok (dataframe oracle (a.data ++ b.data) { metadata := some md }) := by
          rw [union, hcomb]
          rfl
        rw [hu2] at hu
        injection hu with h2
        subst h2
        have hmdnodup := combineGo_names_nodup false b.metadata a.metadata hna md hcomb
        have hshape := combineGo_ok_shape b.metadata a.metadata hna hnb md hcomb
        have hmdne : md ≠ [] := by
          rw [hshape]
          intro hcontra
          rcases List.append_eq_nil.mp hcontra with ⟨h1, h2⟩
          apply hne
          refine ⟨h1, ?_⟩
          have hfil : b.metadata.filter
              (fun m => !(a.metadata.any (fun x => x.name == m.name))) = [] :=
            List.map_eq_nil_iff.mp h2
          cases hb : b.metadata with
          | nil => rfl
          | cons mb rest =>
              exfalso
              rw [h1] at hfil
              rw [hb] at hfil
              simp [List.filter_cons] at hfil
        rw [dataframe_metadata_of_ne_nil oracle _ md hmdne]
        exact hmdnodup
  · -- minus
    intro a b hna hane
    rw [minus]
    by_cases hjeq : jeqColMetaList a.metadata b.metadata = true
    · rw [if_neg (by simp [hjeq])]
      rw [dataframe_metadata_of_ne_nil oracle _ a.metadata hane]
      exact hna
    · rw [if_pos (by simp at hjeq ⊢; exact hjeq)]
      exact hna
  · -- intersect
    intro a b hna hane
    rw [intersect]
    by_cases hjeq : jeqColMetaList a.metadata b.metadata = true
    · rw [if_neg (by simp [hjeq])]
      rw [dataframe_metadata_of_ne_nil oracle _ a.metadata hane]
      exact hna
    · rw [if_pos (by simp at hjeq ⊢; exact hjeq)]
      simp [dataframe, deriveColumnMetadata, deriveMetadataFromData]
  · -- drop
    intro a fields hna hne
    have hmeta : (dropColumns oracle a fields).metadata =
        a.metadata.filter (fun col => !(fields.contains col.name)) :=
      dataframe_metadata_of_ne_nil oracle _ _ hne
    rw [hmeta]
    exact List.Nodup.sublist (List.Sublist.map ColMeta.name (List.filter_sublist _)) hna
  · -- update
    intro a v hna
    have hmeta : (updateRows oracle a v).metadata =
        (match combineMetadata a.metadata (deriveColumnMetadata oracle [v] {}) true with
          | .ok ms => ms
          | .error _ => []) := rfl
    rw [hmeta]
    cases hcomb : combineMetadata a.metadata (deriveColumnMetadata oracle [v] {}) true with
    | ok ms =>
        exact combineGo_names_nodup true (deriveColumnMetadata oracle [v] {}) a.metadata hna
          ms hcomb
    | error e => simp
  · -- rollup
    intro df r hmeta hsumnames hdisj hsum hroll
    obtain ⟨aggregated, newMetadata, hbm, hr⟩ := rollup_ok_inv oracle df r hsum hroll
    have hnames := buildMetadata_names oracle aggregated df.metadata df.config.group_by
      df.config.summaries newMetadata hbm
    have hnodup : (newMetadata.map ColMeta.name).Nodup := by
      rw [hnames]
      apply List.Nodup.append
      · exact List.Nodup.sublist (List.Sublist.map ColMeta.name (List.filter_sublist _)) hmeta
      · exact hsumnames
      · intro n hbase hsumm
        obtain ⟨m, hm, hmn⟩ := List.mem_map.mp hbase
        have hmgk : df.config.group_by.contains m.name = true := (List.mem_filter.mp hm).2
        obtain ⟨s, hs, hsn⟩ := List.mem_map.mp hsumm
        apply hdisj s hs
        have hsm : s.name = m.name := by
          rw [show Summary.name s = s.name from rfl] at hsn
          rw [hsn, ← hmn]
        rw [hsm]
        exact hmgk
    have hnmne : newMetadata ≠ [] := by
      intro hcontra
      rw [hcontra] at hnames
      cases hsumcase : df.config.summaries with
      | nil => exact hsum hsumcase
      | cons s rest =>
          rw [hsumcase] at hnames
          simp at hnames
    rw [hr, dataframe_metadata_of_ne_nil oracle _ newMetadata hnmne]
    exact hnodup

/-- Counterexample to claim C7: nestedJoin on a parent that already has a
column named children produces a schema with two entries of that name. -/
theorem claim7_counterexample :
    ¬ (((nestedJoin (fun _ => false)
        (dataframe (fun _ => false) [[("c", Value.vnum 2)]] {})
        (dataframe (fun _ => false) [[("children", Value.vnum 1)]] {})
        (fun _ _ => true) "children").metadata).map ColMeta.name).Nodup := by
  decide

/-- Witness for claim C7 amended at concrete inputs: derived construction
and a nestedJoin under a fresh children name keep schema names unique. -/
theorem claim7_witness :
    ((((dataframe (fun _ => false) [[("a", Value.vnum 1), ("b", Value.vnum 2)]] {}).metadata).map
      ColMeta.name).Nodup) ∧
    ((((nestedJoin (fun _ => false) (dataframe (fun _ => false) [[("c", Value.vnum 2)]] {})
        (dataframe (fun _ => false) [[("p", Value.vnum 1)]] {})
        (fun _ _ => true) "children").metadata).map ColMeta.name).Nodup) := by
  have h := claim7_amended (fun _ => false)
  constructor
  · exact h.1 [[("a", Value.vnum 1), ("b", Value.vnum 2)]] (by decide)
  · exact h.2.2.1 (dataframe (fun _ => false) [[("c", Value.vnum 2)]] {})
      (dataframe (fun _ => false) [[("p", Value.vnum 1)]] {})
      (fun _ _ => true) "children" (by decide) (by decide)

theorem alGet_mem {α : Type} (l : List (String × α)) (k : String) (v : α)
    (h : alGet l k = some v) : (k, v) ∈ l := by
  induction l with
  | nil => cases h
  | cons e rest ih =>
      obtain ⟨k₀, v₀⟩ := e
      by_cases hk : k₀ == k
      · simp only [alGet, hk, if_pos] at h
        cases h
        simp only [beq_iff_eq] at hk
        subst hk
        exact List.mem_cons_self _ _
      · simp only [alGet, hk, Bool.false_eq_true, if_false] at h
        exact List.mem_cons_of_mem _ (ih h)

/-- One step of the currency fold of mergeCurrencyAttributes, named for
reasoning. -/
def currencyStep (suf : String) (acc : List Column × List Column) (c : Column) :
    List Column × List Column :=
  let base := replaceFirst c.name suf
  if acc.1.any (fun col => col.name == base) then
    (updateFirst (fun col => col.name == base) (fun col => upgradeCurrency col c.name) acc.1,
      acc.2)
  else (acc.1, acc.2 ++ [c])

theorem mergeCurrencyAttributes_eq (input : List Column) (suf : String) :
    mergeCurrencyAttributes input suf =
      ((input.filter (fun c => strEnds c.name suf)).foldl (currencyStep suf)
        (input.filter (fun c => !(strEnds c.name suf)), [])).1 ++
      ((input.filter (fun c => strEnds c.name suf)).foldl (currencyStep suf)
        (input.filter (fun c => !(strEnds c.name suf)), [])).2 := rfl

theorem updateFirst_map_colname (p : Column → Bool) (f : Column → Column)
    (hf : ∀ x, (f x).name = x.name) (l : List Column) :
    (updateFirst p f l).map Column.name = l.map Column.name := by
  induction l with
  | nil => rfl
  | cons x rest ih =>
      by_cases hp : p x
      · simp [updateFirst, hp, hf x]
      · simp [updateFirst, hp, ih]

theorem mem_updateFirst_of_name_ne (l : List Column) (col : Column) (b' : String)
    (f : Column → Column) (hcol : col ∈ l) (hname : col.name ≠ b') :
    col ∈ updateFirst (fun c => c.name == b') f l := by
  induction l with
  | nil => cases hcol
  | cons x rest ih =>
      by_cases hp : x.name == b'
      · rw [updateFirst, if_pos hp]
        rcases List.mem_cons.mp hcol with rfl | hrest
        · simp only [beq_iff_eq] at hp
          exact absurd hp hname
        · exact List.mem_cons_of_mem _ hrest
      · rw [updateFirst, if_neg (by simpa using hp)]
        rcases List.mem_cons.mp hcol with rfl | hrest
        · exact List.mem_cons_self _ _
        · exact List.mem_cons_of_mem _ (ih hrest)

theorem updateFirst_upgrade_mem (l : List Column) (b : String) (cn : String)
    (h : b ∈ l.map Column.name) :
    ∃ col ∈ updateFirst (fun c => c.name == b) (fun c => upgradeCurrency c cn) l,
      col.name = b ∧ col.type = "currency" ∧ col.digits = some 2 ∧
      col.fieldsCurrency = some cn := by
  induction l with
  | nil => simp at h
  | cons x rest ih =>
      by_cases hp : x.name == b
      · rw [updateFirst, if_pos hp]
        simp only [beq_iff_eq] at hp
        refine ⟨upgradeCurrency x cn, List.mem_cons_self _ _, ?_, rfl, rfl, rfl⟩
        rw [show (upgradeCurrency x cn).name = x.name from rfl]
        exact hp
      · rw [updateFirst, if_neg (by simpa using hp)]
        have hb : b ∈ rest.map Column.name := by
          rcases List.mem_map.mp h with ⟨y, hy, hyn⟩
          rcases List.mem_cons.mp hy with rfl | hyrest
          · simp only [beq_iff_eq] at hp
            exact absurd hyn hp
          · rw [← hyn]
            exact List.mem_map_of_mem Column.name hyrest
        obtain ⟨col, hcolmem, hprops⟩ := ih hb
        exact ⟨col, List.mem_cons_of_mem _ hcolmem, hprops⟩

theorem currencyFold_names (suf : String) (cc : List Column) :
    ∀ (cols kept : List Column),
    ((cc.foldl (currencyStep suf) (cols, kept)).1).map Column.name = cols.map Column.name := by
  induction cc with
  | nil => intro cols kept; rfl
  | cons c rest ih =>
      intro cols kept
      rw [List.foldl_cons]
      by_cases hfound : cols.any (fun col => col.name == replaceFirst c.name suf)
      · rw [show currencyStep suf (cols, kept) c =
          (updateFirst (fun col => col.name == replaceFirst c.name suf)
            (fun col => upgradeCurrency col c.name) cols, kept) from by
            rw [currencyStep, if_pos hfound]]
        rw [ih]
        exact updateFirst_map_colname (fun col => col.name == replaceFirst c.name suf)
          (fun col => upgradeCurrency col c.name) (fun x => rfl) cols
      · rw [show currencyStep suf (cols, kept) c = (cols, kept ++ [c]) from by
          rw [currencyStep, if_neg hfound]]
        exact ih cols (kept ++ [c])

theorem currencyFold_preserve (suf : String) (cc : List Column) :
    ∀ (cols kept : List Column) (col : Column), col ∈ cols →
    (∀ c ∈ cc, replaceFirst c.name suf ≠ col.name) →
    col ∈ (cc.foldl (currencyStep suf) (cols, kept)).1 := by
  induction cc with
  | nil => intro cols kept col h _; exact h
  | cons c rest ih =>
      intro cols kept col hcol hno
      rw [List.foldl_cons]
      by_cases hfound : cols.any (fun c' => c'.name == replaceFirst c.name suf)
      · rw [show currencyStep suf (cols, kept) c =
          (updateFirst (fun c' => c'.name == replaceFirst c.name suf)
            (fun c' => upgradeCurrency c' c.name) cols, kept) from by
            rw [currencyStep, if_pos hfound]]
        apply ih _ kept col ?_ (fun c' hc' => hno c' (List.mem_cons_of_mem c hc'))
        apply mem_updateFirst_of_name_ne cols col _ _ hcol
        intro hc
        exact hno c (List.mem_cons_self c rest) hc.symm
      · rw [show currencyStep suf (cols, kept) c = (cols, kept ++ [c]) from by
          rw [currencyStep, if_neg hfound]]
        exact ih cols (kept ++ [c]) col hcol (fun c' hc' => hno c' (List.mem_cons_of_mem c hc'))

theorem currencyFold_upgrade (suf base kc : String) (cc : List Column) :
    ∀ (cols kept : List Column),
    base ∈ cols.map Column.name →
    (∀ c ∈ cc, replaceFirst c.name suf = base → c.name = kc) →
    (∃ c ∈ cc, c.name = kc ∧ replaceFirst c.name suf = base) →
    (cc.map Column.name).Nodup →
    ∃ col ∈ (cc.foldl (currencyStep suf) (cols, kept)).1,
      col.name = base ∧ col.type = "currency" ∧ col.digits = some 2 ∧
      col.fieldsCurrency = some kc := by
  induction cc with
  | nil =>
      intro cols kept _ _ hex _
      simp at hex
  | cons c rest ih =>
      intro cols kept hbase hmapsto hex hccnodup
      simp only [List.map_cons, List.nodup_cons] at hccnodup
      obtain ⟨hcnot, hrestnodup⟩ := hccnodup
      rw [List.foldl_cons]
      obtain ⟨c', hc', hc'name, hc'base⟩ := hex
      rcases List.mem_cons.mp hc' with rfl | hc'rest
      · -- the suffix column kc itself is processed now
        have hfound : cols.any (fun col => col.name == replaceFirst c'.name suf) = true := by
          apply List.any_eq_true.mpr
          obtain ⟨bcol, hbcolmem, hbcoln⟩ := List.mem_map.mp hbase
          refine ⟨bcol, hbcolmem, ?_⟩
          rw [hc'base]
          simp [hbcoln]
        rw [show currencyStep suf (cols, kept) c' =
          (updateFirst (fun col => col.name == replaceFirst c'.name suf)
            (fun col => upgradeCurrency col c'.name) cols, kept) from by
            rw [currencyStep, if_pos hfound]]
        obtain ⟨col, hcolmem, hprops⟩ := updateFirst_upgrade_mem cols
          (replaceFirst c'.name suf) c'.name (by rw [hc'base]; exact hbase)
        have hcolbase : col.name = base := by rw [hprops.1, hc'base]
        refine ⟨col, ?_, ?_⟩
        · apply currencyFold_preserve suf rest _ kept col hcolmem
          intro c'' hc'' hcontra
          have hkc'' := hmapsto c'' (List.mem_cons_of_mem c' hc'') (by rw [hcontra, hcolbase])
          apply hcnot
          rw [hc'name, ← hkc'']
          exact List.mem_map_of_mem Column.name hc''
        · refine ⟨hcolbase, hprops.2.1, hprops.2.2.1, ?_⟩
          rw [hprops.2.2.2, hc'name]
      · -- some other suffix column is processed first
        have hcnotbase : replaceFirst c.name suf ≠ base := by
          intro hc
          have := hmapsto c (List.mem_cons_self c rest) hc
          apply hcnot
          rw [this, ← hc'name]
          exact List.mem_map_of_mem Column.name hc'rest
        by_cases hfound : cols.any (fun col => col.name == replaceFirst c.name suf)
        · rw [show currencyStep suf (cols, kept) c =
            (updateFirst (fun col => col.name == replaceFirst c.name suf)
              (fun col => upgradeCurrency col c.name) cols, kept) from by
              rw [currencyStep, if_pos hfound]]
          apply ih _ kept ?_ ?_ ⟨c', hc'rest, hc'name, hc'base⟩ hrestnodup
          · rw [updateFirst_map_colname (fun col => col.name == replaceFirst c.name suf)
              (fun col => upgradeCurrency col c.name) (fun x => rfl) cols]
            exact hbase
          · exact fun c'' hc'' => hmapsto c'' (List.mem_cons_of_mem c hc'')
        · rw [show currencyStep suf (cols, kept) c = (cols, kept ++ [c]) from by
            rw [currencyStep, if_neg hfound]]
          exact ih cols (kept ++ [c]) hbase
            (fun c'' hc'' => hmapsto c'' (List.mem_cons_of_mem c hc''))
            ⟨c', hc'rest, hc'name, hc'base⟩ hrestnodup

theorem currencyFold_kept (suf : String) (cc : List Column) :
    ∀ (cols kept : List Column) (col : Column),
    col ∈ (cc.foldl (currencyStep suf) (cols, kept)).2 →
    col ∈ kept ∨ (col ∈ cc ∧ ¬(replaceFirst col.name suf ∈ cols.map Column.name)) := by
  induction cc with
  | nil => intro cols kept col h; exact Or.inl h
  | cons c rest ih =>
      intro cols kept col h
      rw [List.foldl_cons] at h
      by_cases hfound : cols.any (fun col => col.name == replaceFirst c.name suf)
      · rw [show currencyStep suf (cols, kept) c =
          (updateFirst (fun col => col.name == replaceFirst c.name suf)
            (fun col => upgradeCurrency col c.name) cols, kept) from by
            rw [currencyStep, if_pos hfound]] at h
        rcases ih _ _ _ h with hkept | ⟨hmem, hnomem⟩
        · exact Or.inl hkept
        · refine Or.inr ⟨List.mem_cons_of_mem c hmem, ?_⟩
          rw [updateFirst_map_colname (fun col => col.name == replaceFirst c.name suf)
            (fun col => upgradeCurrency col c.name) (fun x => rfl) cols] at hnomem
          exact hnomem
      · rw [show currencyStep suf (cols, kept) c = (cols, kept ++ [c]) from by
          rw [currencyStep, if_neg hfound]] at h
        rcases ih _ _ _ h with hkept | ⟨hmem, hnomem⟩
        · rcases List.mem_append.mp hkept with hk | hc
          · exact Or.inl hk
          · simp only [List.mem_singleton] at hc
            subst hc
            refine Or.inr ⟨List.mem_cons_self _ _, ?_⟩
            intro hcontra
            obtain ⟨bcol, hbcolmem, hbcoln⟩ := List.mem_map.mp hcontra
            exact absurd (List.any_eq_true.mpr ⟨bcol, hbcolmem, by simp [hbcoln]⟩) hfound
        · exact Or.inr ⟨List.mem_cons_of_mem c hmem, hnomem⟩

theorem currencyFold_kept_grows (suf : String) (cc : List Column) :
    ∀ (cols kept : List Column) (col : Column), col ∈ kept →
    col ∈ (cc.foldl (currencyStep suf) (cols, kept)).2 := by
  induction cc with
  | nil => intro cols kept col h; exact h
  | cons c rest ih =>
      intro cols kept col h
      rw [List.foldl_cons]
      by_cases hfound : cols.any (fun col => col.name == replaceFirst c.name suf)
      · rw [show currencyStep suf (cols, kept) c =
          (updateFirst (fun col => col.name == replaceFirst c.name suf)
            (fun col => upgradeCurrency col c.name) cols, kept) from by
            rw [currencyStep, if_pos hfound]]
        exact ih _ kept col h
      · rw [show currencyStep suf (cols, kept) c = (cols, kept ++ [c]) from by
          rw [currencyStep, if_neg hfound]]
        exact ih cols (kept ++ [c]) col (List.mem_append_left _ h)

theorem currencyFold_append (suf : String) (cc : List Column) :
    ∀ (cols kept : List Column) (c : Column), c ∈ cc →
    ¬(replaceFirst c.name suf ∈ cols.map Column.name) →
    c ∈ (cc.foldl (currencyStep suf) (cols, kept)).2 := by
  induction cc with
  | nil => intro cols kept c h _; cases h
  | cons c₀ rest ih =>
      intro cols kept c hc hno
      rw [List.foldl_cons]
      rcases List.mem_cons.mp hc with rfl | hcrest
      · have hfound : cols.any (fun col => col.name == replaceFirst c.name suf) = false := by
          apply List.any_eq_false.mpr
          intro bcol hbcol
          simp only [beq_iff_eq]
          intro hcontra
          exact hno (by rw [← hcontra]; exact List.mem_map_of_mem Column.name hbcol)
        rw [show currencyStep suf (cols, kept) c = (cols, kept ++ [c]) from by
          rw [currencyStep, if_neg (by simp [hfound])]]
        exact currencyFold_kept_grows suf rest cols (kept ++ [c]) c
          (List.mem_append_right _ (List.mem_singleton.mpr rfl))
      · by_cases hfound : cols.any (fun col => col.name == replaceFirst c₀.name suf)
        · rw [show currencyStep suf (cols, kept) c₀ =
            (updateFirst (fun col => col.name == replaceFirst c₀.name suf)
              (fun col => upgradeCurrency col c₀.name) cols, kept) from by
              rw [currencyStep, if_pos hfound]]
          apply ih _ kept c hcrest
          rw [updateFirst_map_colname (fun col => col.name == replaceFirst c₀.name suf)
            (fun col => upgradeCurrency col c₀.name) (fun x => rfl) cols]
          exact hno
        · rw [show currencyStep suf (cols, kept) c₀ = (cols, kept ++ [c₀]) from by
            rw [currencyStep, if_neg hfound]]
          exact ih cols (kept ++ [c₀]) c hcrest hno

/-- Claim C8: in view-layer schema derivation with a column named base
plus the currency suffix: if a sibling column named base exists, that
sibling is upgraded to type currency with digits 2 and fields.currency
naming the suffix column, and the suffix column disappears from the
schema; if no sibling exists the suffix column is kept as an ordinary
column. -/
theorem claim8_currency_merge (oracle : String → Bool) (sample : Row) (options : PathOptions)
    (hpath : options.path = none)
    (kc : String) (vc : Value) (hkc : alGet sample kc = some vc)
    (hend : strEnds kc options.currencySuffix = true) :
    (∀ vb, alGet sample (replaceFirst kc options.currencySuffix) = some vb →
      strEnds (replaceFirst kc options.currencySuffix) options.currencySuffix = false →
      (∀ k₂ ∈ Row.keys sample, strEnds k₂ options.currencySuffix = true →
        replaceFirst k₂ options.currencySuffix = replaceFirst kc options.currencySuffix →
        k₂ = kc) →
      (Row.keys sample).Nodup →
      ((∃ col ∈ deriveColumnProperties oracle sample options,
        col.name = replaceFirst kc options.currencySuffix ∧ col.type = "currency" ∧
        col.digits = some 2 ∧ col.fieldsCurrency = some kc) ∧
       (∀ col ∈ deriveColumnProperties oracle sample options, col.name ≠ kc))) ∧
    ((∀ e ∈ sample, e.1 = replaceFirst kc options.currencySuffix →
        strEnds e.1 options.currencySuffix = true) →
      ∃ col ∈ deriveColumnProperties oracle sample options,
        col.name = kc ∧ col.type = getType oracle vc ∧ col.digits = none ∧
        col.fieldsCurrency = none) := by
  have hstep0 : deriveColumnProperties oracle sample options = mergeCurrencyAttributes (sample.map (fun e => { name := e.1, type := getType oracle e.2, sortable := true, filterable := true, sorted := "none", fieldsText := e.1 : Column })) options.currencySuffix := by
    unfold deriveColumnProperties
    rw [hpath]
    rfl
  have hnames0 : ((sample.map (fun e => { name := e.1, type := getType oracle e.2, sortable := true, filterable := true, sorted := "none", fieldsText := e.1 : Column })).map Column.name) = sample.map Prod.fst := by
    rw [List.map_map]
    rfl
  have hkc_mem : (kc, vc) ∈ sample := alGet_mem sample kc vc hkc
  have hkc_cc : ({ name := kc, type := getType oracle vc, sortable := true, filterable := true, sorted := "none", fieldsText := kc : Column }) ∈ (sample.map (fun e => { name := e.1, type := getType oracle e.2, sortable := true, filterable := true, sorted := "none", fieldsText := e.1 : Column })).filter (fun c => strEnds c.name options.currencySuffix) := by
    apply List.mem_filter.mpr
    constructor
    · exact List.mem_map_of_mem _ hkc_mem
    · exact hend
  constructor
  · intro vb hvb hbnosuf huniq hnodup
    have hbase_mem : replaceFirst kc options.currencySuffix ∈ ((sample.map (fun e => { name := e.1, type := getType oracle e.2, sortable := true, filterable := true, sorted := "none", fieldsText := e.1 : Column })).filter (fun c => !(strEnds c.name options.currencySuffix))).map Column.name := by
      have hb_mem : (replaceFirst kc options.currencySuffix, vb) ∈ sample :=
        alGet_mem sample _ vb hvb
      apply List.mem_map.mpr
      refine ⟨_, List.mem_filter.mpr ⟨List.mem_map_of_mem _ hb_mem, ?_⟩, rfl⟩
      simp [hbnosuf]
    have hmapsto : ∀ c ∈ (sample.map (fun e => { name := e.1, type := getType oracle e.2, sortable := true, filterable := true, sorted := "none", fieldsText := e.1 : Column })).filter (fun c => strEnds c.name options.currencySuffix), replaceFirst c.name options.currencySuffix = replaceFirst kc options.currencySuffix → c.name = kc := by
      intro c hc hrepl
      obtain ⟨hc0, hcend⟩ := List.mem_filter.mp hc
      obtain ⟨e, he, hce⟩ := List.mem_map.mp hc0
      have hcname : c.name = e.1 := by rw [← hce]
      rw [hcname] at hrepl hcend ⊢
      exact huniq e.1 (List.mem_map_of_mem Prod.fst he) hcend hrepl
    have hccnd : (((sample.map (fun e => { name := e.1, type := getType oracle e.2, sortable := true, filterable := true, sorted := "none", fieldsText := e.1 : Column })).filter (fun c => strEnds c.name options.currencySuffix)).map Column.name).Nodup := by
      apply List.Nodup.sublist (List.Sublist.map Column.name (List.filter_sublist _))
      rw [hnames0]
      exact hnodup
    rw [hstep0, mergeCurrencyAttributes_eq]
    constructor
    · obtain ⟨col, hcolmem, hprops⟩ := currencyFold_upgrade options.currencySuffix
        (replaceFirst kc options.currencySuffix) kc _ _ [] hbase_mem hmapsto
        ⟨_, hkc_cc, rfl, rfl⟩ hccnd
      exact ⟨col, List.mem_append_left _ hcolmem, hprops⟩
    · intro col hcolmem hcontra
      rcases List.mem_append.mp hcolmem with hin1 | hin2
      · have hname_mem : col.name ∈ ((sample.map (fun e => { name := e.1, type := getType oracle e.2, sortable := true, filterable := true, sorted := "none", fieldsText := e.1 : Column })).filter (fun c => !(strEnds c.name options.currencySuffix))).map Column.name := by
          rw [← currencyFold_names options.currencySuffix _ _ []]
          exact List.mem_map_of_mem Column.name hin1
        obtain ⟨bcol, hbcolmem, hbcoln⟩ := List.mem_map.mp hname_mem
        have hpred := (List.mem_filter.mp hbcolmem).2
        rw [hbcoln, hcontra, hend] at hpred
        cases hpred
      · rcases currencyFold_kept options.currencySuffix _ _ [] col hin2 with hk | hk
        · cases hk
        · apply hk.2
          rw [hcontra]
          exact hbase_mem
  · intro hnosib
    have hbase_notin : ¬ (replaceFirst kc options.currencySuffix ∈ ((sample.map (fun e => { name := e.1, type := getType oracle e.2, sortable := true, filterable := true, sorted := "none", fieldsText := e.1 : Column })).filter (fun c => !(strEnds c.name options.currencySuffix))).map Column.name) := by
      intro hcontra
      obtain ⟨bcol, hbcolmem, hbcoln⟩ := List.mem_map.mp hcontra
      obtain ⟨hbcol0, hbcolpred⟩ := List.mem_filter.mp hbcolmem
      obtain ⟨e, he, hbe⟩ := List.mem_map.mp hbcol0
      have hename : e.1 = replaceFirst kc options.currencySuffix := by
        rw [← hbcoln, ← hbe]
      have hse := hnosib e he hename
      rw [← hbe] at hbcolpred
      simp only [hse] at hbcolpred
      cases hbcolpred
    rw [hstep0, mergeCurrencyAttributes_eq]
    refine ⟨_, List.mem_append_right _
      (currencyFold_append options.currencySuffix _ _ [] _ hkc_cc hbase_notin),
      rfl, rfl, rfl, rfl⟩

/-- Witness for claim C8: with the default suffix, price_currency folds
into price (upgraded to currency), and a lone x_currency column is kept
ordinary. -/
theorem claim8_witness :
    ((∃ col ∈ deriveColumnProperties (fun _ => false)
        [("price", Value.vnum 10), ("price_currency", Value.vstr "USD")] {},
      col.name = "price" ∧ col.type = "currency" ∧ col.digits = some 2 ∧
      col.fieldsCurrency = some "price_currency") ∧
     (∀ col ∈ deriveColumnProperties (fun _ => false)
        [("price", Value.vnum 10), ("price_currency", Value.vstr "USD")] {},
      col.name ≠ "price_currency")) ∧
    (∃ col ∈ deriveColumnProperties (fun _ => false) [("x_currency", Value.vstr "USD")] {},
      col.name = "x_currency" ∧ col.type = "string" ∧ col.digits = none ∧
      col.fieldsCurrency = none) := by
  constructor
  · exact (claim8_currency_merge (fun _ => false)
      [("price", Value.vnum 10), ("price_currency", Value.vstr "USD")] {} rfl
      "price_currency" (Value.vstr "USD") rfl (by decide)).1
      (Value.vnum 10) rfl (by decide) (by decide) (by decide)
  · exact (claim8_currency_merge (fun _ => false)
      [("x_currency", Value.vstr "USD")] {} rfl
      "x_currency" (Value.vstr "USD") rfl (by decide)).2 (by decide)

theorem forall₂_map_left {α β γ : Type} (R : β → γ → Prop) (f : α → β) (l : List α)
    (u : List γ) (h : List.Forall₂ R (l.map f) u) :
    List.Forall₂ (fun a c => R (f a) c) l u := by
  induction l generalizing u with
  | nil =>
      cases h
      exact List.Forall₂.nil
  | cons x xs ih =>
      rw [List.map_cons] at h
      cases h with
      | cons hx hrest => exact List.Forall₂.cons hx (ih _ hrest)

theorem getAlignGenerator_eq (data : List Row) (cfg : Config) (entries : List Value) :
    getAlignGenerator data cfg entries =
      (optMapM (valuePick cfg.align_by) entries).map (fun combos =>
        (jdiff (juniq (data.map (Row.pick cfg.align_by))) (juniq combos)).map
          (fun c => Row.merge c (alignTemplate cfg))) := rfl

/-- Claim C1 (amended): a successful alignment step rewrites, in each
bucket, ONLY the field named by the children config: there the genuinely
collected entries are kept (every occurrence, in order) tagged with
actual flag 1, followed by one synthetic filler per deduplicated global
align-key combination that is deep-equal to no combination of the
bucket, each filler being that combination merged under the template
stripped of align and group fields plus actual flag 0; every other field
of the bucket, in particular every other summary collection, is returned
unchanged. -/
theorem claim1_amended (data : List Row) (cfg : Config)
    (grouped : List (Row × Row)) (aligned : List Row)
    (h : fillAlignedData grouped cfg (getAlignGenerator data cfg) = some aligned) :
    List.Forall₂ (fun (bucket : Row × Row) (out : Row) =>
      ∃ xs combos,
        Row.get bucket.snd cfg.children = some (.varr xs) ∧
        optMapM (valuePick cfg.align_by) xs = some combos ∧
        out = Row.insert bucket.snd cfg.children (.varr
          (xs.map (tagActual cfg) ++
            ((jdiff (juniq (data.map (Row.pick cfg.align_by))) (juniq combos)).map
              (fun c => Row.merge c (alignTemplate cfg))).map Value.vobj)) ∧
        ∀ k, k ≠ cfg.children → Row.get out k = Row.get bucket.snd k)
      grouped aligned := by
  have h1 : optMapM (fun row =>
      match Row.get row cfg.children with
      | some (.varr xs) =>
          (getAlignGenerator data cfg xs).map (fun fills =>
            Row.insert row cfg.children
              (.varr (xs.map (tagActual cfg) ++ fills.map Value.vobj)))
      | _ => none) (grouped.map Prod.snd) = some aligned := h
  have h2 := optMapM_forall₂ _ _ _ h1
  have h3 := forall₂_map_left _ Prod.snd grouped aligned h2
  refine List.Forall₂.imp ?_ h3
  intro bucket out hfb
  cases hget : Row.get bucket.snd cfg.children with
  | none =>
      rw [hget] at hfb
      dsimp only at hfb
      cases hfb
  | some v =>
      rw [hget] at hfb
      cases v with
      | vundef => dsimp only at hfb; cases hfb
      | vnull => dsimp only at hfb; cases hfb
      | vbool b => dsimp only at hfb; cases hfb
      | vnum q => dsimp only at hfb; cases hfb
      | vdate d => dsimp only at hfb; cases hfb
      | vstr s => dsimp only at hfb; cases hfb
      | vobj o => dsimp only at hfb; cases hfb
      | varr xs =>
          dsimp only at hfb
          rw [getAlignGenerator_eq] at hfb
          cases hcm : optMapM (valuePick cfg.align_by) xs with
          | none =>
              rw [hcm] at hfb
              simp only [Option.map] at hfb
              cases hfb
          | some combos =>
              rw [hcm] at hfb
              simp only [Option.map] at hfb
              have hout := Option.some.inj hfb
              refine ⟨xs, combos, rfl, hcm, hout.symm, ?_⟩
              intro k hk
              rw [← hout]
              exact Row.get_insert_ne bucket.snd cfg.children k _ hk

/-- Witness for claim C1 (amended): a two-row, two-group dataset aligned
on one key; each bucket gets its actual entry tagged 1 followed by the
filler for the combination of the other bucket, inside the children
field. -/
theorem claim1_witness :
    groupDataByKeys [[("g", Value.vnum 1), ("t", Value.vstr "a")], [("g", Value.vnum 2), ("t", Value.vstr "b")]] ["g"] [{ name := "children", mapper := fun r => Value.vobj (Row.omit ["g"] r), reducer := fun xs => Value.varr xs }] = some [([("g", Value.vnum 1)], [("g", Value.vnum 1), ("children", Value.varr [Value.vobj [("t", Value.vstr "a")]])]), ([("g", Value.vnum 2)], [("g", Value.vnum 2), ("children", Value.varr [Value.vobj [("t", Value.vstr "b")]])])] ∧
    fillAlignedData [([("g", Value.vnum 1)], [("g", Value.vnum 1), ("children", Value.varr [Value.vobj [("t", Value.vstr "a")]])]), ([("g", Value.vnum 2)], [("g", Value.vnum 2), ("children", Value.varr [Value.vobj [("t", Value.vstr "b")]])])] ({ group_by := ["g"], align_by := ["t"], summaries := [{ name := "children", mapper := fun r => Value.vobj (Row.omit ["g"] r), reducer := fun xs => Value.varr xs }] } : Config) (getAlignGenerator [[("g", Value.vnum 1), ("t", Value.vstr "a")], [("g", Value.vnum 2), ("t", Value.vstr "b")]] ({ group_by := ["g"], align_by := ["t"], summaries := [{ name := "children", mapper := fun r => Value.vobj (Row.omit ["g"] r), reducer := fun xs => Value.varr xs }] } : Config)) = some [[("g", Value.vnum 1), ("children", Value.varr [Value.vobj [("t", Value.vstr "a"), ("actual_flag", Value.vnum 1)], Value.vobj [("t", Value.vstr "b"), ("actual_flag", Value.vnum 0)]])], [("g", Value.vnum 2), ("children", Value.varr [Value.vobj [("t", Value.vstr "b"), ("actual_flag", Value.vnum 1)], Value.vobj [("t", Value.vstr "a"), ("actual_flag", Value.vnum 0)]])]] ∧
    List.Forall₂ (fun (bucket : Row × Row) (out : Row) => ∃ xs combos, Row.get bucket.snd "children" = some (Value.varr xs) ∧ optMapM (valuePick ["t"]) xs = some combos ∧ out = Row.insert bucket.snd "children" (Value.varr (xs.map (tagActual ({ group_by := ["g"], align_by := ["t"], summaries := [{ name := "children", mapper := fun r => Value.vobj (Row.omit ["g"] r), reducer := fun xs => Value.varr xs }] } : Config)) ++ ((jdiff (juniq ([[("g", Value.vnum 1), ("t", Value.vstr "a")], [("g", Value.vnum 2), ("t", Value.vstr "b")]].map (Row.pick ["t"]))) (juniq combos)).map (fun c => Row.merge c (alignTemplate ({ group_by := ["g"], align_by := ["t"], summaries := [{ name := "children", mapper := fun r => Value.vobj (Row.omit ["g"] r), reducer := fun xs => Value.varr xs }] } : Config)))).map Value.vobj)) ∧ ∀ k, k ≠ "children" → Row.get out k = Row.get bucket.snd k) [([("g", Value.vnum 1)], [("g", Value.vnum 1), ("children", Value.varr [Value.vobj [("t", Value.vstr "a")]])]), ([("g", Value.vnum 2)], [("g", Value.vnum 2), ("children", Value.varr [Value.vobj [("t", Value.vstr "b")]])])] [[("g", Value.vnum 1), ("children", Value.varr [Value.vobj [("t", Value.vstr "a"), ("actual_flag", Value.vnum 1)], Value.vobj [("t", Value.vstr "b"), ("actual_flag", Value.vnum 0)]])], [("g", Value.vnum 2), ("children", Value.varr [Value.vobj [("t", Value.vstr "b"), ("actual_flag", Value.vnum 1)], Value.vobj [("t", Value.vstr "a"), ("actual_flag", Value.vnum 0)]])]] := by
  refine ⟨rfl, rfl, ?_⟩
  exact claim1_amended [[("g", Value.vnum 1), ("t", Value.vstr "a")], [("g", Value.vnum 2), ("t", Value.vstr "b")]] ({ group_by := ["g"], align_by := ["t"], summaries := [{ name := "children", mapper := fun r => Value.vobj (Row.omit ["g"] r), reducer := fun xs => Value.varr xs }] } : Config) [([("g", Value.vnum 1)], [("g", Value.vnum 1), ("children", Value.varr [Value.vobj [("t", Value.vstr "a")]])]), ([("g", Value.vnum 2)], [("g", Value.vnum 2), ("children", Value.varr [Value.vobj [("t", Value.vstr "b")]])])] [[("g", Value.vnum 1), ("children", Value.varr [Value.vobj [("t", Value.vstr "a"), ("actual_flag", Value.vnum 1)], Value.vobj [("t", Value.vstr "b"), ("actual_flag", Value.vnum 0)]])], [("g", Value.vnum 2), ("children", Value.varr [Value.vobj [("t", Value.vstr "b"), ("actual_flag", Value.vnum 1)], Value.vobj [("t", Value.vstr "a"), ("actual_flag", Value.vnum 0)]])]] rfl

/-- Counterexample to claim C1 as stated: the claim says EVERY summary
collected array is extended to one entry per distinct global align-key
combination, but the alignment step rewrites only the field named by the
children config.  Here two distinct combinations are observed globally,
the second bucket misses one of them, its children array is extended
with the filler, yet its total array keeps exactly one entry. -/
theorem claim1_counterexample :
    groupDataByKeys [[("g", Value.vnum 1), ("t", Value.vstr "a"), ("v", Value.vnum 10)], [("g", Value.vnum 1), ("t", Value.vstr "b"), ("v", Value.vnum 20)], [("g", Value.vnum 2), ("t", Value.vstr "a"), ("v", Value.vnum 30)]] ["g"] [{ name := "children", mapper := fun r => Value.vobj (Row.omit ["g"] r), reducer := fun xs => Value.varr xs }, { name := "total", mapper := fun r => (Row.get r "v").getD Value.vundef, reducer := fun xs => Value.varr xs }] = some [([("g", Value.vnum 1)], [("g", Value.vnum 1), ("children", Value.varr [Value.vobj [("t", Value.vstr "a"), ("v", Value.vnum 10)], Value.vobj [("t", Value.vstr "b"), ("v", Value.vnum 20)]]), ("total", Value.varr [Value.vnum 10, Value.vnum 20])]), ([("g", Value.vnum 2)], [("g", Value.vnum 2), ("children", Value.varr [Value.vobj [("t", Value.vstr "a"), ("v", Value.vnum 30)]]), ("total", Value.varr [Value.vnum 30])])] ∧
    fillAlignedData [([("g", Value.vnum 1)], [("g", Value.vnum 1), ("children", Value.varr [Value.vobj [("t", Value.vstr "a"), ("v", Value.vnum 10)], Value.vobj [("t", Value.vstr "b"), ("v", Value.vnum 20)]]), ("total", Value.varr [Value.vnum 10, Value.vnum 20])]), ([("g", Value.vnum 2)], [("g", Value.vnum 2), ("children", Value.varr [Value.vobj [("t", Value.vstr "a"), ("v", Value.vnum 30)]]), ("total", Value.varr [Value.vnum 30])])] ({ group_by := ["g"], align_by := ["t"], summaries := [{ name := "children", mapper := fun r => Value.vobj (Row.omit ["g"] r), reducer := fun xs => Value.varr xs }, { name := "total", mapper := fun r => (Row.get r "v").getD Value.vundef, reducer := fun xs => Value.varr xs }] } : Config) (getAlignGenerator [[("g", Value.vnum 1), ("t", Value.vstr "a"), ("v", Value.vnum 10)], [("g", Value.vnum 1), ("t", Value.vstr "b"), ("v", Value.vnum 20)], [("g", Value.vnum 2), ("t", Value.vstr "a"), ("v", Value.vnum 30)]] ({ group_by := ["g"], align_by := ["t"], summaries := [{ name := "children", mapper := fun r => Value.vobj (Row.omit ["g"] r), reducer := fun xs => Value.varr xs }, { name := "total", mapper := fun r => (Row.get r "v").getD Value.vundef, reducer := fun xs => Value.varr xs }] } : Config)) = some [[("g", Value.vnum 1), ("children", Value.varr [Value.vobj [("t", Value.vstr "a"), ("v", Value.vnum 10), ("actual_flag", Value.vnum 1)], Value.vobj [("t", Value.vstr "b"), ("v", Value.vnum 20), ("actual_flag", Value.vnum 1)]]), ("total", Value.varr [Value.vnum 10, Value.vnum 20])], [("g", Value.vnum 2), ("children", Value.varr [Value.vobj [("t", Value.vstr "a"), ("v", Value.vnum 30), ("actual_flag", Value.vnum 1)], Value.vobj [("t", Value.vstr "b"), ("actual_flag", Value.vnum 0)]]), ("total", Value.varr [Value.vnum 30])]] ∧
    (juniq ([[("g", Value.vnum 1), ("t", Value.vstr "a"), ("v", Value.vnum 10)], [("g", Value.vnum 1), ("t", Value.vstr "b"), ("v", Value.vnum 20)], [("g", Value.vnum 2), ("t", Value.vstr "a"), ("v", Value.vnum 30)]].map (Row.pick ["t"]))).length = 2 ∧
    Row.get [("g", Value.vnum 2), ("children", Value.varr [Value.vobj [("t", Value.vstr "a"), ("v", Value.vnum 30), ("actual_flag", Value.vnum 1)], Value.vobj [("t", Value.vstr "b"), ("actual_flag", Value.vnum 0)]]), ("total", Value.varr [Value.vnum 30])] "total" = some (Value.varr [Value.vnum 30]) ∧
    Row.get [("g", Value.vnum 2), ("children", Value.varr [Value.vobj [("t", Value.vstr "a"), ("v", Value.vnum 30), ("actual_flag", Value.vnum 1)], Value.vobj [("t", Value.vstr "b"), ("actual_flag", Value.vnum 0)]]), ("total", Value.varr [Value.vnum 30])] "children" = some (Value.varr [Value.vobj [("t", Value.vstr "a"), ("v", Value.vnum 30), ("actual_flag", Value.vnum 1)], Value.vobj [("t", Value.vstr "b"), ("actual_flag", Value.vnum 0)]]) :=
  ⟨rfl, rfl, rfl, rfl, rfl⟩
